import Mathlib

/-!
Verification of the sheet-backed record store of the simplifybudget_app
repository (Google Apps Script backend).

The relevant source functions are shallowly embedded as Lean functions:

* a spreadsheet table is a list of slots (`List (Option α)`), slot `i`
  standing for sheet row `startRow + i`; a `none` slot is a fully blank row,
  `Sheet.getLastRow` is modelled by `lastUsedCount` (the sheet content is
  exactly the table region, so the last row with content is the last
  occupied slot);
* JavaScript values that flow into amount cells are modelled by `JSVal`
  (numbers, NaN, strings, undefined/null) with the JS truthiness and
  numeric-coercion rules restricted to the decimal-integer fragment that
  the claims exercise;
* thrown exceptions are modelled with `Except`: a public function without
  its own try/catch returns `.error` when a callee throws (`getBudgetSheet`
  rethrows, so a missing sheet is a throw, not a `null` return);
* `new Date()` instants are passed in explicitly (`now` parameters) and
  date cells carry millisecond epoch integers.
-/

namespace SimBudget

/-! ## JavaScript value model -/

/-- Accumulating decimal parser over characters; fails on the first
non-digit. -/
def parseNatAux : List Char → Nat → Option Nat
  | [], acc => some acc
  | c :: rest, acc =>
    if c.isDigit then parseNatAux rest (acc * 10 + (c.toNat - 48)) else none

/-- Signed decimal integer parser (the JS numeric-string fragment the
claims exercise). -/
def parseIntChars : List Char → Option Int
  | [] => none
  | '-' :: rest =>
    if rest.isEmpty then none else (parseNatAux rest 0).map (fun n => -(n : Int))
  | '+' :: rest =>
    if rest.isEmpty then none else (parseNatAux rest 0).map (fun n => (n : Int))
  | cs => (parseNatAux cs 0).map (fun n => (n : Int))

/-- Whitespace trimming on the character list of a string. -/
def jsTrim (s : String) : String :=
  String.mk (((s.toList.dropWhile Char.isWhitespace).reverse.dropWhile Char.isWhitespace).reverse)

/-- Model of a JavaScript value appearing in a record field or sheet cell:
`undef` covers both `undefined` and `null`, `nan` is the number NaN, `num`
is a finite number (integer fragment), `str` a string. -/
inductive JSVal where
  | undef
  | nan
  | num (x : Int)
  | str (s : String)
deriving Repr, DecidableEq

/-- JS truthiness: `undefined`, `null`, `NaN`, `0` and the empty string are
falsy, everything else modelled here is truthy. -/
def JSVal.truthy : JSVal → Bool
  | .undef => false
  | .nan => false
  | .num x => x != 0
  | .str s => s != ""

/-- Unary plus coercion `+v` (the `Number` conversion); `none` is NaN.
Strings are handled on the decimal-integer fragment: the empty (or blank)
string coerces to `0`, otherwise the string must parse as an integer. -/
def JSVal.toNumber : JSVal → Option Int
  | .undef => none
  | .nan => none
  | .num x => some x
  | .str s => if jsTrim s = "" then some 0 else parseIntChars (jsTrim s).toList

/-- Model of the global `parseFloat` on the same fragment; unlike `Number`,
a blank string gives NaN. -/
def JSVal.parseFloat : JSVal → Option Int
  | .undef => none
  | .nan => none
  | .num x => some x
  | .str s => parseIntChars (jsTrim s).toList

/-- JS comparison `v <= 0` after numeric coercion: any comparison with NaN
is false. -/
def jsLeZero : Option Int → Bool
  | none => false
  | some x => x ≤ 0

/-- JS string fallback `a || b` for string-valued fields. -/
def strOr (a b : String) : String := if a = "" then b else a

/-! ## Generic slot table

A table is a list of slots; slot `i` is sheet row `startRow + i`.  Row
numbers in the source are always at least the start row (5 or 37), hence
always truthy in JS; the model therefore uses 0-based slot indices wrapped
in `Option` where the source relies on row-number truthiness. -/

/-- Read slot `i` of a table (blank beyond the end). -/
def getSlot (t : List (Option α)) (i : Nat) : Option α := (t[i]?).getD none

/-- Write slot `i` of a table, padding with blank rows if the write is past
the end (a range `setValues` beyond the last row grows the sheet). -/
def setSlot (t : List (Option α)) (i : Nat) (v : α) : List (Option α) :=
  (t ++ List.replicate (i + 1 - t.length) none).set i (some v)

/-- Number of rows up to and including the last occupied slot; this models
`Sheet.getLastRow` relative to the table start (sheet content is exactly
the table region). -/
def lastUsedCount : List (Option α) → Nat
  | [] => 0
  | s :: rest =>
    let n := lastUsedCount rest
    if n = 0 then (if s.isSome then 1 else 0) else n + 1

/-- Number of slots the savers read: `max(sheet.getLastRow(), startRow)`
translated to slot counts (at least one slot is always read). -/
def readCount (t : List (Option α)) : Nat := max (lastUsedCount t) 1

/-- Apply a list of single-row writes in order. -/
def applyWrites (t : List (Option α)) (ws : List (Nat × α)) : List (Option α) :=
  ws.foldl (fun acc w => setSlot acc w.1 w.2) t

/-- Assoc-list lookup used for the id → row maps; prepending a binding
overwrites, matching JS object assignment (`map[id] = r`). -/
def lookupRow (m : List (String × Nat)) (k : String) : Option Nat :=
  (m.find? (fun p => p.1 == k)).map (·.2)

/-- Build the id → row map the savers construct by scanning the id column
over the read range: later rows overwrite earlier ones, rows with a falsy
id are skipped. -/
def buildMap (idOf : Option α → String) (t : List (Option α)) : List (String × Nat) :=
  (List.range (readCount t)).foldl
    (fun m i => if idOf (getSlot t i) = "" then m else (idOf (getSlot t i), i) :: m) []

/-- Collect the hole rows (rows whose hole predicate holds) of the read
range in first-seen order, capped at `cap` entries (the expense and income
savers stop collecting once `holes.length` reaches the batch length). -/
def buildHoles (isHole : Option α → Bool) (t : List (Option α)) (cap : Nat) : List Nat :=
  (List.range (readCount t)).foldl
    (fun hs i => if isHole (getSlot t i) && hs.length < cap then hs ++ [i] else hs) []

/-! ## Trial/License ledger (Code.js)

The trial tracking sheet holds one row per user in rows 3..100: column A the
obfuscated email, column B the start date, column C the optional end date,
column D the last-active timestamp.  `checkTrialStatus` and `recordFirstUse`
read the fixed window A3:C100 (98 rows).  Instants are epoch milliseconds. -/

/-- A date-bearing sheet cell: blank, an unparseable value (`new Date(x)`
gives an invalid date), or a valid instant in epoch milliseconds. -/
inductive DateCell where
  | blank
  | invalid
  | time (ms : Int)
deriving Repr, DecidableEq

/-- One row of the trial tracking sheet (columns A..D). -/
structure TrialRow where
  emailCell : String
  startDate : DateCell
  endDate : DateCell
  lastActive : DateCell
deriving Repr, DecidableEq

/-- A fully blank trial sheet row. -/
def blankTrialRow : TrialRow := ⟨"", .blank, .blank, .blank⟩

/-- The ledger window the code scans: rows 3..100 of the sheet, i.e. 98
rows; index `i` stands for sheet row `3 + i`. -/
def trialWindow : Nat := 98

/-- Read row `3 + i` of the trial sheet (blank beyond the stored rows). -/
def trialRowAt (led : List TrialRow) (i : Nat) : TrialRow := led.getD i blankTrialRow

/-- Write row `3 + i` of the trial sheet. -/
def setTrialRow (led : List TrialRow) (i : Nat) (row : TrialRow) : List TrialRow :=
  (led ++ List.replicate (i + 1 - led.length) blankTrialRow).set i row

/-- Embeds `obfuscateEmail`: the stored cell is the first four characters of
the email followed by the XOR-encrypted, base64-encoded full email.  The
cipher key is an external script property absent from the repository, so the
encrypted transport is modelled as a separator plus the email itself; the
claims depend only on the roundtrip with `decodeObfuscatedEmail`. -/
def obfuscateEmail (email : String) : String :=
  if email = "" then "" else String.mk (email.toList.take 4) ++ "~" ++ email

/-- Embeds `decodeObfuscatedEmail`: cells of length at most 4 decode to the
empty string, otherwise the 4-character plain text portion is stripped and
the transport decoded (model: drop the separator).  The model roundtrips
exactly like the source for emails of length at least 4. -/
def decodeObfuscatedEmail (o : String) : String :=
  if o.toList.length ≤ 4 then "" else String.mk ((o.toList.drop 4).drop 1)

/-- Result object of the trial functions: `status` plus the optional
`daysLeft` and `error` fields of the returned literal. -/
structure TrialResult where
  status : String
  daysLeft : Option Int
  errMsg : Option String
deriving Repr, DecidableEq

/-- Milliseconds per day (`1000 * 60 * 60 * 24`). -/
def msPerDay : Int := 86400000

/-- JS `Math.ceil(a / b)` for integers `a` and positive `b`. -/
def jsCeilDiv (a b : Int) : Int := -((-a).fdiv b)

/-- Embeds the status derivation of `checkTrialStatus` on a found row: no
end date means a paid user; an invalid end date is an error; otherwise
`daysLeft = Math.max(0, Math.ceil((end - today) / msPerDay))` classified as
trial (positive) or expired (zero). -/
def deriveTrialStatus (row : TrialRow) (now : Int) : TrialResult :=
  match row.endDate with
  | .blank => ⟨"paid", none, none⟩
  | .invalid => ⟨"error", none, some "Invalid end date"⟩
  | .time endMs =>
    let d := max 0 (jsCeilDiv (endMs - now) msPerDay)
    if d > 0 then ⟨"trial", some d, none⟩ else ⟨"expired", some d, none⟩

/-- The scan both trial functions perform over the window: the first row
whose decoded column-A cell equals the email (a blank cell decodes to the
empty string, matching the source guard `storedEmail ? decode(...) : ""`). -/
def findTrialRow (led : List TrialRow) (email : String) : Option Nat :=
  (List.range trialWindow).find?
    (fun i => decodeObfuscatedEmail (trialRowAt led i).emailCell == email)

/-- Embeds the `nextEmptyRow` computation of `recordFirstUse`: the first
window row with a blank email cell; if that scan leaves the default (row 3)
while the last window row is occupied, the row after the last occupied
email instead. -/
def nextEmptyIdx (led : List TrialRow) : Nat :=
  let first :=
    match (List.range trialWindow).find? (fun i => (trialRowAt led i).emailCell == "") with
    | some i => i
    | none => 0
  if first = 0 ∧ (trialRowAt led (trialWindow - 1)).emailCell ≠ "" then
    match (List.range trialWindow).reverse.find? (fun i => (trialRowAt led i).emailCell != "") with
    | some j => j + 1
    | none => 0
  else first

/-- The append path of `recordFirstUse` for a user not present in the
window: a new row with the obfuscated email, the start date, a blank end
date (the source comment: store start date; leave end date blank on first
initialization) and the last-active timestamp is written to the next empty
row, and `status trial / daysLeft 30` is returned. -/
def recordFreshUser (led : List TrialRow) (now : Int) (email : String) :
    TrialResult × List TrialRow :=
  (⟨"trial", some 30, none⟩,
   setTrialRow led (nextEmptyIdx led) ⟨obfuscateEmail email, .time now, .blank, .time now⟩)

/-- Embeds `checkTrialStatus`: guard against a missing email, scan the
window; on a match refresh last-active (column D) and derive the status; on
no match fall through to `recordFirstUse`, whose own scan also finds
nothing, reaching the append path `recordFreshUser`. -/
def checkTrialStatus (led : List TrialRow) (now : Int) (email : String) :
    TrialResult × List TrialRow :=
  if email = "" then (⟨"error", none, some "No email provided"⟩, led)
  else
    match findTrialRow led email with
    | some i =>
      let row := trialRowAt led i
      (deriveTrialStatus row now, setTrialRow led i { row with lastActive := .time now })
    | none => recordFreshUser led now email

/-- Embeds `recordFirstUse`: guard against a missing email, scan the window
of decoded emails; an existing user is delegated to `checkTrialStatus`, a
new user is appended by `recordFreshUser`. -/
def recordFirstUse (led : List TrialRow) (now : Int) (email : String) :
    TrialResult × List TrialRow :=
  if email = "" then (⟨"error", none, some "No email provided"⟩, led)
  else
    match findTrialRow led email with
    | some _ => checkTrialStatus led now email
    | none => recordFreshUser led now email

/-! ## Timestamp ledger (Zztestingpurposes.js)

The Dontedit sheet holds one last-modified cell per dataset (J6..J12);
`updateDataTimestamp` writes the current instant into the cell selected by
the dataset name and ignores unknown names.  The Dontedit sheet is assumed
reachable (when it is not, the function's own try/catch makes it a no-op). -/

/-- The timestamp cells J6..J12 of the Dontedit sheet. -/
structure TsLedger where
  netWorth : String
  recurring : String
  settings : String
  masterData : String
  budget : String
  categories : String
  income : String
deriving Repr, DecidableEq

/-- Embeds `updateDataTimestamp`: write `now` to the cell of the named
dataset, no-op for unknown names. -/
def updateDataTimestamp (led : TsLedger) (dataType : String) (now : String) : TsLedger :=
  if dataType = "netWorth" then { led with netWorth := now }
  else if dataType = "recurring" then { led with recurring := now }
  else if dataType = "settings" then { led with settings := now }
  else if dataType = "masterData" then { led with masterData := now }
  else if dataType = "budget" then { led with budget := now }
  else if dataType = "categories" then { led with categories := now }
  else if dataType = "income" then { led with income := now }
  else led

/-! ## Shared upsert machinery (saveBatchExpenses / saveBatchIncome)

The two savers share one algorithm: scan the id column, build the id map
and the capped hole list, classify each input record as update (id in map)
or insert (first hole, else append past the last row), then write all
updates followed by all inserts.  Record dates are carried as opaque
strings: `createDateOnly` renders a date which no claim inspects, so the
rendering is the identity on the carried string. -/

/-- Date rendering of `createDateOnly` (opaque: no claim inspects the
rendered text). -/
def createDateOnly (s : String) : String := s

/-- Mutable state of the classification loop of the batch savers. -/
structure UpsertState (β : Type) where
  map : List (String × Nat)
  holes : List Nat
  lastRow : Nat
  toUpdate : List (Nat × β)
  toInsert : List (Nat × β)
deriving Repr, DecidableEq

/-- Initial loop state: the id map and hole list scanned from the table,
`lastRow` the 0-based index of the last read slot. -/
def initState (idOf : Option β → String) (isHole : Option β → Bool)
    (t : List (Option β)) (cap : Nat) : UpsertState β :=
  ⟨buildMap idOf t, buildHoles isHole t cap, readCount t - 1, [], []⟩

/-- Embeds the per-record placement of the savers: an id found in the map
is an in-place update; otherwise the record takes the first remaining hole
(`holes.shift()`) or is appended after the current last row (`++lastRow`),
and the map learns the new position (`map[id] = target`). -/
def upsertPlace (recId : ρ → String) (v : β) (st : UpsertState β) (e : ρ) : UpsertState β :=
  match lookupRow st.map (recId e) with
  | some r => { st with toUpdate := st.toUpdate ++ [(r, v)] }
  | none =>
    match st.holes with
    | h :: hs =>
      { st with
        holes := hs
        toInsert := st.toInsert ++ [(h, v)]
        map := (recId e, h) :: st.map }
    | [] =>
      { st with
        lastRow := st.lastRow + 1
        toInsert := st.toInsert ++ [(st.lastRow + 1, v)]
        map := (recId e, st.lastRow + 1) :: st.map }

/-- One loop iteration: records failing the amount validation are skipped
(`continue`), the rest are placed. -/
def upsertStep (recId : ρ → String) (dropped : ρ → Bool) (values : ρ → β)
    (st : UpsertState β) (e : ρ) : UpsertState β :=
  if dropped e then st else upsertPlace recId (values e) st e

/-- The classification loop over the whole batch. -/
def upsertLoop (recId : ρ → String) (dropped : ρ → Bool) (values : ρ → β)
    (st : UpsertState β) (es : List ρ) : UpsertState β :=
  es.foldl (upsertStep recId dropped values) st

/-- Result object of `saveBatchExpenses` / `saveBatchIncome`. -/
structure SaveResult where
  success : Bool
  updated : Nat
  inserted : Nat
  reused : Int
  errMsg : String
deriving Repr, DecidableEq

/-! ## Income store (unnamed income server file)

Table: Income sheet columns D..J from row 5; slot `i` is sheet row `5 + i`.
The id column is D; a row with a falsy id cell is a hole. -/

/-- A client income record as consumed by `saveBatchIncome`. -/
structure IncRec where
  id : String
  date : String
  amount : JSVal
  name : String
  description : String
  account : String
  source : String
  notes : String
deriving Repr, DecidableEq

/-- The seven cells D..J written for an income record. -/
structure IncStored where
  id : String
  date : String
  amount : Option Int
  name : String
  account : String
  source : String
  notes : String
deriving Repr, DecidableEq

/-- The id cell (column D) of an income slot; blank rows read as "". -/
def incSlotId : Option IncStored → String
  | none => ""
  | some r => r.id

/-- Hole predicate of the income (and expense) saver: the id cell is falsy. -/
def incIsHole (s : Option IncStored) : Bool := incSlotId s == ""

/-- Embeds the validation guard `!e.amount || +e.amount <= 0` of
`saveBatchIncome` (and `saveBatchExpenses`): a falsy amount, or an amount
coercing to a number at most 0, is skipped; a NaN coercion compares false
and is kept. -/
def incDropped (e : IncRec) : Bool := !e.amount.truthy || jsLeZero e.amount.toNumber

/-- The values array written for an income record (columns D..J). -/
def incValues (e : IncRec) : IncStored :=
  { id := e.id
    date := createDateOnly e.date
    amount := e.amount.toNumber
    name := strOr e.name e.description
    account := if e.account ≠ "" ∧ jsTrim e.account ≠ "" then e.account else "Other"
    source := strOr e.source "Other"
    notes := e.notes }

/-- The sheet-level effect of `saveBatchIncome` on an available Income
table: classify, then write all updates followed by all inserts. -/
def saveBatchIncomeCore (t : List (Option IncStored)) (income : List IncRec) :
    List (Option IncStored) × SaveResult :=
  let st := upsertLoop (fun e : IncRec => e.id) incDropped incValues
    (initState incSlotId incIsHole t income.length) income
  (applyWrites t (st.toUpdate ++ st.toInsert),
   ⟨true, st.toUpdate.length, st.toInsert.length,
    (income.length : Int) - st.toUpdate.length - st.toInsert.length, ""⟩)

/-- Embeds `saveBatchIncome`.  `getBudgetSheet` rethrows when no sheet is
reachable and `saveBatchIncome` has no try/catch, so a missing Income sheet
is an escaped exception (`.error`); the in-function null check is
unreachable.  On success both the masterData and income timestamps are
touched. -/
def saveBatchIncome (sheet : Option (List (Option IncStored))) (led : TsLedger)
    (now : String) (income : List IncRec) :
    Except String (List (Option IncStored) × TsLedger × SaveResult) :=
  match sheet with
  | none => .error "No spreadsheet ID found"
  | some t =>
    let r := saveBatchIncomeCore t income
    .ok (r.1, updateDataTimestamp (updateDataTimestamp led "masterData" now) "income" now, r.2)

/-! ## Expense store (zTransactions.js)

Table: Expenses sheet columns D..K from row 5; slot `i` is sheet row
`5 + i`.  The id column is D.  The category cell is produced by
`getZategoryFromCache`, which throws when the category is unknown. -/

/-- A category of the server-side category cache. -/
structure Category where
  name : String
  fullName : String
  zategoryFormula : String
deriving Repr, DecidableEq

/-- Embeds `getZategoryFromCache` over a loaded `_serverCategoriesCache`:
the formula of the first category matching by full name or name, otherwise
a thrown error. -/
def getZategoryFromCache (cats : List Category) (categoryName : String) :
    Except String String :=
  match cats.find? (fun c => c.fullName == categoryName || c.name == categoryName) with
  | some c => .ok c.zategoryFormula
  | none => .error ("Category not found: " ++ categoryName)

/-- A client expense record as consumed by `saveBatchExpenses`. -/
structure ExpRec where
  transactionId : String
  date : String
  amount : JSVal
  category : String
  name : String
  description : String
  label : String
  notes : String
  account : String
deriving Repr, DecidableEq

/-- The eight cells D..K written for an expense record. -/
structure ExpStored where
  transactionId : String
  date : String
  amount : Option Int
  zategory : String
  name : String
  label : String
  notes : String
  account : String
deriving Repr, DecidableEq

/-- The id cell (column D) of an expense slot; blank rows read as "". -/
def expSlotId : Option ExpStored → String
  | none => ""
  | some r => r.transactionId

/-- Hole predicate of the expense saver: the id cell is falsy. -/
def expIsHole (s : Option ExpStored) : Bool := expSlotId s == ""

/-- The validation guard of `saveBatchExpenses`, identical to the income
one. -/
def expDropped (e : ExpRec) : Bool := !e.amount.truthy || jsLeZero e.amount.toNumber

/-- The values array written for an expense record (columns D..K); building
it calls `getZategoryFromCache`, which can throw. -/
def expValues (cats : List Category) (e : ExpRec) : Except String ExpStored :=
  match getZategoryFromCache cats e.category with
  | .error m => .error m
  | .ok z =>
    .ok { transactionId := e.transactionId
          date := createDateOnly e.date
          amount := e.amount.toNumber
          zategory := z
          name := strOr e.name e.description
          label := e.label
          notes := e.notes
          account := if e.account ≠ "" ∧ jsTrim e.account ≠ "" then e.account else "Other" }

/-- The classification loop of `saveBatchExpenses`: like `upsertLoop`, but
a thrown category lookup aborts the whole call before any write. -/
def upsertLoopE (recId : ρ → String) (dropped : ρ → Bool)
    (values : ρ → Except String β) :
    UpsertState β → List ρ → Except String (UpsertState β)
  | st, [] => .ok st
  | st, e :: es =>
    if dropped e then upsertLoopE recId dropped values st es
    else
      match values e with
      | .error m => .error m
      | .ok v => upsertLoopE recId dropped values (upsertPlace recId v st e) es

/-- Embeds `saveBatchExpenses`.  As with income, a missing Expenses sheet
is a rethrown exception and the function has no try/catch, so both that
and an unknown category escape as `.error`; on success all updates are
written, then all inserts, and the masterData timestamp is touched. -/
def saveBatchExpenses (sheet : Option (List (Option ExpStored))) (cats : List Category)
    (led : TsLedger) (now : String) (expenses : List ExpRec) :
    Except String (List (Option ExpStored) × TsLedger × SaveResult) :=
  match sheet with
  | none => .error "No spreadsheet ID found"
  | some t =>
    match upsertLoopE (fun e : ExpRec => e.transactionId) expDropped (expValues cats)
        (initState expSlotId expIsHole t expenses.length) expenses with
    | .error m => .error m
    | .ok st =>
      .ok (applyWrites t (st.toUpdate ++ st.toInsert),
           updateDataTimestamp led "masterData" now,
           ⟨true, st.toUpdate.length, st.toInsert.length,
            (expenses.length : Int) - st.toUpdate.length - st.toInsert.length, ""⟩)

/-! ## Net worth store (zNetWorth.js)

Table: Net Worth sheet columns C..K from row 37; slot `i` is sheet row
`37 + i`.  A hole is a fully blank row (`!row.some(cell => cell)`); a row
with data but a blank id cell is neither mapped nor reusable.  The whole
saver is wrapped in try/catch, so a missing sheet yields a structured
failure result instead of an escaped exception. -/

/-- Date rendering of `createMonthYearOnly` (opaque, as for
`createDateOnly`). -/
def createMonthYearOnly (s : String) : String := s

/-- A client net worth entry as consumed by `saveBatchNetWorth`. -/
structure NWRec where
  id : String
  assetId : String
  date : String
  asset : String
  typ : String
  name : String
  amount : JSVal
  change : String
  changeAmount : JSVal
  notes : String
deriving Repr, DecidableEq

/-- The nine cells C..K written for a net worth entry. -/
structure NWStored where
  id : String
  date : String
  asset : String
  typ : String
  name : String
  amount : Int
  change : String
  changeAmount : Int
  notes : String
deriving Repr, DecidableEq

/-- The id cell (column C) of a net worth slot; blank rows read as "". -/
def nwSlotId : Option NWStored → String
  | none => ""
  | some r => r.id

/-- Hole predicate of the net worth saver: the whole row is blank. -/
def nwIsHole (s : Option NWStored) : Bool := s.isNone

/-- The uncapped hole scan of `saveBatchNetWorth` (`availableRows`). -/
def buildAllHoles (isHole : Option α → Bool) (t : List (Option α)) : List Nat :=
  (List.range (readCount t)).foldl
    (fun hs i => if isHole (getSlot t i) then hs ++ [i] else hs) []

/-- Embeds the validation guard of `saveBatchNetWorth`: an entry whose
amount is undefined/null or fails `parseFloat` is skipped; a non-positive
parsed amount passes. -/
def nwDropped (e : NWRec) : Bool := e.amount == JSVal.undef || (JSVal.parseFloat e.amount).isNone

/-- The values array written for a net worth entry (columns C..K); `gid`
is the value a `generateAssetId()` call would produce, used only when both
`entry.id` and `entry.assetId` are falsy. -/
def nwValues (e : NWRec) (gid : String) : NWStored :=
  { id := strOr e.id (strOr e.assetId gid)
    date := createMonthYearOnly e.date
    asset := e.asset
    typ := e.typ
    name := e.name
    amount := (JSVal.parseFloat e.amount).getD 0
    change := e.change
    changeAmount := (JSVal.parseFloat e.changeAmount).getD 0
    notes := e.notes }

/-- Loop state of `saveBatchNetWorth`; unlike the shared savers, the id map
is fixed (never extended during the loop) and so lives outside the state.
`k` counts the `generateAssetId` calls made so far. -/
structure NWState where
  holes : List Nat
  nextNew : Nat
  toUpdate : List (Nat × NWStored)
  toInsert : List (Nat × NWStored)
  k : Nat
deriving Repr, DecidableEq

/-- One loop iteration of `saveBatchNetWorth`: skip invalid entries;
update in place only when `entry.id` is truthy and in the map (the map is
not updated on inserts, so in-batch duplicates each insert); otherwise
consume the next available blank row or append at `nextNewRow++`. -/
def nwStep (map : List (String × Nat)) (genId : Nat → String)
    (st : NWState) (e : NWRec) : NWState :=
  if nwDropped e then st
  else
    let needGen := e.id = "" ∧ e.assetId = ""
    let v := nwValues e (if needGen then genId st.k else "")
    let k2 := if needGen then st.k + 1 else st.k
    match (if e.id = "" then none else lookupRow map e.id) with
    | some r => { st with toUpdate := st.toUpdate ++ [(r, v)], k := k2 }
    | none =>
      match st.holes with
      | h :: hs => { st with holes := hs, toInsert := st.toInsert ++ [(h, v)], k := k2 }
      | [] =>
        { st with
          nextNew := st.nextNew + 1
          toInsert := st.toInsert ++ [(st.nextNew, v)]
          k := k2 }

/-- Result object of `saveBatchNetWorth` (payload fields the claims read;
`entries` is the saved-entry echo, `timestamp` the netWorth instant). -/
structure NWResult where
  success : Bool
  updated : Nat
  inserted : Nat
  total : Nat
  entries : List NWStored
  timestamp : String
  errMsg : String
deriving Repr, DecidableEq

/-- Embeds `saveBatchNetWorth`: on a missing sheet the rethrown error is
caught by the surrounding try/catch and reported inline; otherwise
classify, write updates then inserts, and touch only the netWorth
timestamp.  `genId` models the nondeterministic `generateAssetId`
generator (indexed by call count). -/
def saveBatchNetWorth (sheet : Option (List (Option NWStored))) (led : TsLedger)
    (genId : Nat → String) (now : String) (entries : List NWRec) :
    Option (List (Option NWStored)) × TsLedger × NWResult :=
  match sheet with
  | none => (none, led, ⟨false, 0, 0, 0, [], "", "Error: No spreadsheet ID found"⟩)
  | some t =>
    let map := buildMap nwSlotId t
    let st := entries.foldl (nwStep map genId) ⟨buildAllHoles nwIsHole t, readCount t, [], [], 0⟩
    let t2 := applyWrites t (st.toUpdate ++ st.toInsert)
    (some t2, updateDataTimestamp led "netWorth" now,
     ⟨true, st.toUpdate.length, st.toInsert.length,
      st.toUpdate.length + st.toInsert.length,
      (st.toUpdate ++ st.toInsert).map (·.2), now, ""⟩)

/-! ## Clear-by-id operations

`clearTransactionRow` and `clearIncomeRow` locate the row with a TextFinder
configured `matchEntireCell(true).matchCase(false)`: an exact,
case-insensitive, whole-cell match anywhere on the sheet, no substring
fallback.  `clearNetWorthRow` scans column C for a strict exact match and
falls back to a substring scan across all truthy cells. -/

/-- Result object of the clear operations. -/
structure ClearResult where
  success : Bool
  errMsg : String
  rowIndex : Option Nat
deriving Repr, DecidableEq

/-- Clear the full field span of a row, leaving a hole. -/
def clearSlot (t : List (Option α)) (i : Nat) : List (Option α) := t.set i none

/-- Display text of a numeric cell holding a possibly-NaN amount. -/
def amountCellString : Option Int → String
  | none => "NaN"
  | some x => toString x

/-- The display texts of the cells of an expense row (columns D..K). -/
def expCellStrings (r : ExpStored) : List String :=
  [r.transactionId, r.date, amountCellString r.amount, r.zategory,
   r.name, r.label, r.notes, r.account]

/-- The display texts of the cells of an income row (columns D..J). -/
def incCellStrings (r : IncStored) : List String :=
  [r.id, r.date, amountCellString r.amount, r.name, r.account, r.source, r.notes]

/-- Case-insensitive whole-cell equality, as configured on the TextFinder. -/
def eqIgnoreCase (a b : String) : Bool :=
  a.toList.map Char.toLower == b.toList.map Char.toLower

/-- Embeds the TextFinder search: the first row any of whose cells equals
the identifier, entire-cell and case-insensitively. -/
def findExactRow (cells : β → List String) (t : List (Option β)) (idStr : String) :
    Option Nat :=
  (List.range t.length).find? (fun i =>
    match getSlot t i with
    | none => false
    | some r => (cells r).any (fun c => eqIgnoreCase c idStr))

/-- Embeds `clearTransactionRow`: no fallback search; on a hit clear
columns D..K and touch masterData; a miss is reported as not found. -/
def clearTransactionRow (sheet : Option (List (Option ExpStored))) (led : TsLedger)
    (now : String) (transactionId : String) :
    Option (List (Option ExpStored)) × TsLedger × ClearResult :=
  match sheet with
  | none => (none, led, ⟨false, "Error: No spreadsheet ID found", none⟩)
  | some t =>
    match findExactRow expCellStrings t transactionId with
    | none => (some t, led, ⟨false, "Transaction not found: " ++ transactionId, none⟩)
    | some i =>
      (some (clearSlot t i), updateDataTimestamp led "masterData" now, ⟨true, "", some i⟩)

/-- Embeds `clearIncomeRow`: same TextFinder search; on a hit clear columns
D..J and touch masterData and income. -/
def clearIncomeRow (sheet : Option (List (Option IncStored))) (led : TsLedger)
    (now : String) (transactionId : String) :
    Option (List (Option IncStored)) × TsLedger × ClearResult :=
  match sheet with
  | none => (none, led, ⟨false, "Error: No spreadsheet ID found", none⟩)
  | some t =>
    match findExactRow incCellStrings t transactionId with
    | none => (some t, led, ⟨false, "Income transaction not found: " ++ transactionId, none⟩)
    | some i =>
      (some (clearSlot t i),
       updateDataTimestamp (updateDataTimestamp led "masterData" now) "income" now,
       ⟨true, "", some i⟩)

/-- Contiguous-substring test on character lists. -/
def containsSub (sub : List Char) : List Char → Bool
  | [] => sub.isEmpty
  | c :: rest => sub.isPrefixOf (c :: rest) || containsSub sub rest

/-- JS `s.includes(sub)`. -/
def substrIn (sub s : String) : Bool := containsSub sub.toList s.toList

/-- The cells of a net worth row paired with their JS truthiness (the
fallback scan skips falsy cells: blank strings and zero amounts). -/
def nwCells (r : NWStored) : List (String × Bool) :=
  [(r.id, r.id ≠ ""), (r.date, r.date ≠ ""), (r.asset, r.asset ≠ ""),
   (r.typ, r.typ ≠ ""), (r.name, r.name ≠ ""),
   (toString r.amount, r.amount ≠ 0), (r.change, r.change ≠ ""),
   (toString r.changeAmount, r.changeAmount ≠ 0), (r.notes, r.notes ≠ "")]

/-- Embeds the two-phase row search of `clearNetWorthRow` over the read
range: first a strict exact match on the column C value (a blank cell reads
as "" and can match strictly), then a substring scan across all truthy
cells of each row. -/
def nwFindRow (t : List (Option NWStored)) (identifier : String) : Option Nat :=
  match (List.range (readCount t)).find? (fun i => nwSlotId (getSlot t i) == identifier) with
  | some i => some i
  | none =>
    (List.range (readCount t)).find? (fun i =>
      match getSlot t i with
      | none => false
      | some r => (nwCells r).any (fun c => c.2 && substrIn identifier c.1))

/-- Embeds `clearNetWorthRow`.  On a hit the row is cleared (columns C..K)
and the netWorth timestamp touched, but the success object literal then
reads the undefined local `timestamp`, raising a ReferenceError that the
catch block converts into a failure result: the function reports failure
while the mutations stand. -/
def clearNetWorthRow (sheet : Option (List (Option NWStored))) (led : TsLedger)
    (now : String) (identifier : String) :
    Option (List (Option NWStored)) × TsLedger × ClearResult :=
  match sheet with
  | none => (none, led, ⟨false, "Error: No spreadsheet ID found", none⟩)
  | some t =>
    match nwFindRow t identifier with
    | none => (some t, led, ⟨false, "Net worth entry not found: " ++ identifier, none⟩)
    | some i =>
      (some (clearSlot t i), updateDataTimestamp led "netWorth" now,
       ⟨false, "ReferenceError: timestamp is not defined", some i⟩)

/-! ## Verification infrastructure for the idempotence analysis

The following predicates are not part of the embedding; they state the
preconditions and the loop invariant under which the income batch saver is
idempotent. -/

/-- The documented store invariant: occupied slots have pairwise distinct
nonempty ids. -/
def UniqueIds (t : List (Option IncStored)) : Prop :=
  ∀ (i j : Nat) (vi vj : IncStored), getSlot t i = some vi → getSlot t j = some vj →
    vi.id ≠ "" → vi.id = vj.id → i = j

/-- A batch whose validated records carry nonempty, pairwise distinct ids. -/
def ValidDistinct (es : List IncRec) : Prop :=
  (∀ e ∈ es, incDropped e = false → e.id ≠ "") ∧
  List.Pairwise (fun a b => incDropped a = false → incDropped b = false → a.id ≠ b.id) es

/-- Invariant of the classification loop of `saveBatchIncome`, relative to
the table `t` being read. -/
structure IncInv (t : List (Option IncStored)) (st : UpsertState IncStored) : Prop where
  tgtNodup : ((st.toUpdate ++ st.toInsert).map Prod.fst).Nodup
  idsNodup : ((st.toUpdate ++ st.toInsert).map (fun w => w.2.id)).Nodup
  idsNe : ∀ w ∈ st.toUpdate ++ st.toInsert, w.2.id ≠ ""
  updSrc : ∀ w ∈ st.toUpdate, incSlotId (getSlot t w.1) = w.2.id
  insHole : ∀ w ∈ st.toInsert, incIsHole (getSlot t w.1) = true
  tgtLe : ∀ w ∈ st.toUpdate ++ st.toInsert, w.1 ≤ st.lastRow
  lastRowGe : readCount t - 1 ≤ st.lastRow
  holesProp : ∀ h ∈ st.holes, incIsHole (getSlot t h) = true ∧ h < readCount t ∧
    h ∉ (st.toUpdate ++ st.toInsert).map Prod.fst
  holesNodup : st.holes.Nodup
  mapNone : ∀ id, id ≠ "" → (∀ w ∈ st.toUpdate ++ st.toInsert, w.2.id ≠ id) →
    lookupRow st.map id = lookupRow (buildMap incSlotId t) id
  mapSome : ∀ id, id ≠ "" → ∀ w ∈ st.toUpdate ++ st.toInsert, w.2.id = id →
    lookupRow st.map id = some w.1

/-! ### Table lemmas -/

theorem getSlot_setSlot_self (t : List (Option α)) (i : Nat) (v : α) :
    getSlot (setSlot t i v) i = some v := by
  unfold getSlot setSlot
  rw [List.getElem?_set_self]
  · simp
  · have : i + 1 ≤ (t ++ List.replicate (i + 1 - t.length) none).length := by
      simp [List.length_append, List.length_replicate]
      omega
    omega

theorem getSlot_setSlot_ne (t : List (Option α)) (i j : Nat) (v : α) (h : j ≠ i) :
    getSlot (setSlot t i v) j = getSlot t j := by
  unfold getSlot setSlot
  rw [List.getElem?_set_ne (by omega), List.getElem?_append]
  rcases Nat.lt_or_ge j t.length with hj | hj
  · rw [if_pos hj]
  · rw [if_neg (by omega), List.getElem?_eq_none hj, List.getElem?_replicate]
    split <;> rfl

theorem getSlot_eq_none_of_le (t : List (Option α)) (i : Nat)
    (h : lastUsedCount t ≤ i) : getSlot t i = none := by
  induction t generalizing i with
  | nil => simp [getSlot]
  | cons s rest ih =>
    simp only [lastUsedCount] at h
    cases i with
    | zero =>
      by_cases hn : lastUsedCount rest = 0
      · simp [hn] at h
        cases s with
        | none => simp [getSlot]
        | some v => simp at h
      · simp [hn] at h
    | succ j =>
      simp only [getSlot, List.getElem?_cons_succ]
      apply ih
      by_cases hn : lastUsedCount rest = 0
      · omega
      · simp [hn] at h; omega

theorem lt_lastUsedCount_of_getSlot (t : List (Option α)) (i : Nat) (v : α)
    (h : getSlot t i = some v) : i < lastUsedCount t := by
  by_contra hc
  rw [getSlot_eq_none_of_le t i (by omega)] at h
  exact Option.noConfusion h

theorem lastUsedCount_le_length (t : List (Option α)) :
    lastUsedCount t ≤ t.length := by
  induction t with
  | nil => simp [lastUsedCount]
  | cons s rest ih =>
    simp only [lastUsedCount, List.length_cons]
    by_cases hn : lastUsedCount rest = 0
    · cases s <;> simp [hn]
    · simp [hn]; omega

theorem setSlot_eq_self (t : List (Option α)) (i : Nat) (v : α)
    (h : getSlot t i = some v) : setSlot t i v = t := by
  unfold getSlot at h
  have hi : i < t.length := by
    by_contra hc
    rw [List.getElem?_eq_none (by omega)] at h
    simp at h
  unfold setSlot
  have hpad : i + 1 - t.length = 0 := by omega
  rw [hpad]
  simp only [List.replicate_zero, List.append_nil]
  have hv : t[i]? = some (some v) := by
    rcases ht : t[i]? with _ | w
    · rw [ht] at h; simp at h
    · rw [ht] at h; simp at h; rw [h]
  apply List.ext_getElem?
  intro n
  by_cases hn : n = i
  · subst hn
    rw [List.getElem?_set_self (by omega), hv]
  · rw [List.getElem?_set_ne (by omega)]

theorem setSlot_setSlot (t : List (Option α)) (i : Nat) (a b : α) :
    setSlot (setSlot t i a) i b = setSlot t i b := by
  unfold setSlot
  rw [List.length_set, List.length_append, List.length_replicate]
  have h0 : i + 1 - (t.length + (i + 1 - t.length)) = 0 := by omega
  rw [h0]
  simp [List.set_set]

theorem trialRowAt_setTrialRow_self (led : List TrialRow) (i : Nat) (row : TrialRow) :
    trialRowAt (setTrialRow led i row) i = row := by
  unfold trialRowAt setTrialRow
  rw [List.getD_eq_getElem?_getD, List.getElem?_set_self]
  · simp
  · simp [List.length_append, List.length_replicate]
    omega

theorem trialRowAt_setTrialRow_ne (led : List TrialRow) (i j : Nat) (row : TrialRow)
    (h : j ≠ i) : trialRowAt (setTrialRow led i row) j = trialRowAt led j := by
  unfold trialRowAt setTrialRow
  rw [List.getD_eq_getElem?_getD, List.getD_eq_getElem?_getD]
  rw [List.getElem?_set_ne (by omega), List.getElem?_append]
  rcases Nat.lt_or_ge j led.length with hj | hj
  · rw [if_pos hj]
  · rw [if_neg (by omega), List.getElem?_eq_none hj, List.getElem?_replicate]
    split <;> rfl

theorem find?_range'_eq_some {p : Nat → Bool} :
    ∀ (n s idx : Nat), s ≤ idx → idx < s + n →
      (∀ j, s ≤ j → j < idx → p j = false) → p idx = true →
      (List.range' s n).find? p = some idx := by
  intro n
  induction n with
  | zero => intro s idx h1 h2; omega
  | succ m ih =>
    intro s idx h1 h2 hb ha
    rw [List.range'_succ, List.find?_cons]
    rcases Nat.eq_or_lt_of_le h1 with he | hlt
    · subst he; rw [ha]
    · rw [hb s (le_refl s) hlt]
      exact ih (s + 1) idx hlt (by omega) (fun j hj1 hj2 => hb j (by omega) hj2) ha

theorem find?_range_eq_some {p : Nat → Bool} {n idx : Nat} (h1 : idx < n)
    (hb : ∀ j, j < idx → p j = false) (ha : p idx = true) :
    (List.range n).find? p = some idx := by
  rw [List.range_eq_range']
  exact find?_range'_eq_some n 0 idx (Nat.zero_le idx) (by omega)
    (fun j _ hj => hb j hj) ha

theorem foldl_capped_head {p : Nat → Bool} {cap : Nat} :
    ∀ (l : List Nat) (acc : List Nat), acc ≠ [] →
      (l.foldl (fun hs i => if p i && hs.length < cap then hs ++ [i] else hs) acc).head? =
        acc.head? := by
  intro l
  induction l with
  | nil => intro acc h; rfl
  | cons i l ih =>
    intro acc h
    simp only [List.foldl_cons]
    split
    · rw [ih (acc ++ [i]) (by simp)]
      cases acc with
      | nil => exact absurd rfl h
      | cons a rest => simp
    · exact ih acc h

theorem foldl_capped_find {p : Nat → Bool} {cap : Nat} (hcap : 0 < cap) :
    ∀ (l : List Nat),
      (l.foldl (fun hs i => if p i && hs.length < cap then hs ++ [i] else hs) []).head? =
        l.find? p := by
  intro l
  induction l with
  | nil => rfl
  | cons i l ih =>
    simp only [List.foldl_cons, List.find?_cons]
    rcases hp : p i with _ | _
    · simpa [hp] using ih
    · rw [if_pos (by simp [hp, hcap])]
      simp only [List.nil_append]
      rw [foldl_capped_head l [i] (by simp)]
      rfl

theorem buildHoles_head (isHole : Option α → Bool) (t : List (Option α)) (cap : Nat)
    (hcap : 0 < cap) :
    (buildHoles isHole t cap).head? =
      (List.range (readCount t)).find? (fun i => isHole (getSlot t i)) := by
  unfold buildHoles
  exact foldl_capped_find hcap _

theorem jsCeilDiv_mul_cancel (k b : Int) (hb : b ≠ 0) : jsCeilDiv (k * b) b = k := by
  unfold jsCeilDiv
  rw [← Int.neg_mul, Int.mul_fdiv_cancel _ hb, neg_neg]

theorem jsCeilDiv_nonpos (a b : Int) (ha : a ≤ 0) (hb : 0 ≤ b) : jsCeilDiv a b ≤ 0 := by
  unfold jsCeilDiv
  have : 0 ≤ (-a).fdiv b := Int.fdiv_nonneg (by omega) hb
  omega

theorem foldl_uncapped_head {p : Nat → Bool} :
    ∀ (l : List Nat) (acc : List Nat), acc ≠ [] →
      (l.foldl (fun hs i => if p i then hs ++ [i] else hs) acc).head? = acc.head? := by
  intro l
  induction l with
  | nil => intro acc h; rfl
  | cons i l ih =>
    intro acc h
    simp only [List.foldl_cons]
    split
    · rw [ih (acc ++ [i]) (by simp)]
      cases acc with
      | nil => exact absurd rfl h
      | cons a rest => simp
    · exact ih acc h

theorem foldl_uncapped_find {p : Nat → Bool} :
    ∀ (l : List Nat),
      (l.foldl (fun hs i => if p i then hs ++ [i] else hs) []).head? = l.find? p := by
  intro l
  induction l with
  | nil => rfl
  | cons i l ih =>
    simp only [List.foldl_cons, List.find?_cons]
    rcases hp : p i with _ | _
    · simpa [hp] using ih
    · rw [if_pos rfl]
      simp only [List.nil_append]
      rw [foldl_uncapped_head l [i] (by simp)]
      rfl

theorem buildAllHoles_head (isHole : Option α → Bool) (t : List (Option α)) :
    (buildAllHoles isHole t).head? =
      (List.range (readCount t)).find? (fun i => isHole (getSlot t i)) := by
  unfold buildAllHoles
  exact foldl_uncapped_find _

theorem upsertLoopE_pair_dup (cats : List Category) (e1 e2 : ExpRec) (v1 v2 : ExpStored)
    (hid : e2.transactionId = e1.transactionId)
    (hd1 : expDropped e1 = false) (hd2 : expDropped e2 = false)
    (hv1 : expValues cats e1 = .ok v1) (hv2 : expValues cats e2 = .ok v2)
    (st : UpsertState ExpStored)
    (hfresh : lookupRow st.map e1.transactionId = none)
    (hU : st.toUpdate = []) (hI : st.toInsert = []) :
    ∃ target st2,
      upsertLoopE (fun r : ExpRec => r.transactionId) expDropped (expValues cats)
          st [e1, e2] = .ok st2 ∧
      st2.toUpdate = [(target, v2)] ∧ st2.toInsert = [(target, v1)] := by
  simp only [upsertLoopE, hd1, hd2, Bool.false_eq_true, if_false, hv1, hv2]
  simp only [upsertPlace, hfresh]
  cases hst : st.holes with
  | cons h hs =>
    refine ⟨h, _, rfl, ?_, ?_⟩ <;>
      simp [lookupRow, List.find?_cons, hid, hU, hI]
  | nil =>
    refine ⟨st.lastRow + 1, _, rfl, ?_, ?_⟩ <;>
      simp [lookupRow, List.find?_cons, hid, hU, hI]

theorem applyWrites_cons (t : List (Option α)) (w : Nat × α) (ws : List (Nat × α)) :
    applyWrites t (w :: ws) = applyWrites (setSlot t w.1 w.2) ws := rfl

theorem applyWrites_append (t : List (Option α)) (a b : List (Nat × α)) :
    applyWrites t (a ++ b) = applyWrites (applyWrites t a) b := by
  unfold applyWrites
  exact List.foldl_append _ _ _ _

theorem getSlot_applyWrites_not_mem (t : List (Option α)) (ws : List (Nat × α)) (i : Nat)
    (h : i ∉ ws.map Prod.fst) : getSlot (applyWrites t ws) i = getSlot t i := by
  induction ws generalizing t with
  | nil => rfl
  | cons w ws ih =>
    simp only [List.map_cons, List.mem_cons, not_or] at h
    rw [applyWrites_cons, ih (setSlot t w.1 w.2) h.2]
    exact getSlot_setSlot_ne t w.1 i w.2 h.1

theorem getSlot_applyWrites_mem (t : List (Option α)) (ws : List (Nat × α)) (i : Nat)
    (v : α) (hnd : (ws.map Prod.fst).Nodup) (hmem : (i, v) ∈ ws) :
    getSlot (applyWrites t ws) i = some v := by
  induction ws generalizing t with
  | nil => simp at hmem
  | cons w ws ih =>
    simp only [List.map_cons, List.nodup_cons] at hnd
    rcases List.mem_cons.mp hmem with heq | hmem2
    · subst heq
      have hni : (i : Nat) ∉ ws.map Prod.fst := by simpa using hnd.1
      rw [applyWrites_cons, getSlot_applyWrites_not_mem _ ws i hni]
      exact getSlot_setSlot_self t i v
    · rw [applyWrites_cons]
      exact ih (setSlot t w.1 w.2) hnd.2 hmem2

theorem applyWrites_id (t : List (Option α)) (ws : List (Nat × α))
    (h : ∀ w ∈ ws, getSlot t w.1 = some w.2) : applyWrites t ws = t := by
  induction ws with
  | nil => rfl
  | cons w ws ih =>
    simp only [applyWrites, List.foldl_cons]
    rw [setSlot_eq_self t w.1 w.2 (h w (List.mem_cons_self w ws))]
    exact ih (fun w hw => h w (List.mem_cons_of_mem _ hw))

theorem find?_append_match (l₁ l₂ : List α) (q : α → Bool) :
    (l₁ ++ l₂).find? q =
      match l₁.find? q with
      | some a => some a
      | none => l₂.find? q := by
  induction l₁ with
  | nil => rfl
  | cons x l ih =>
    simp only [List.cons_append, List.find?_cons]
    cases q x
    · exact ih
    · rfl

theorem find?_eq_some_of_unique {q : α → Bool} {a : α} :
    ∀ {l : List α}, a ∈ l → q a = true → (∀ b ∈ l, q b = true → b = a) →
      l.find? q = some a := by
  intro l
  induction l with
  | nil => intro h; simp at h
  | cons x l ih =>
    intro hmem hq huniq
    rw [List.find?_cons]
    rcases hx : q x with _ | _
    · have hax : a ≠ x := fun he => by rw [he, hx] at hq; exact Bool.noConfusion hq
      have : a ∈ l := by
        rcases List.mem_cons.mp hmem with h | h
        · exact absurd h hax
        · exact h
      exact ih this hq (fun b hb hqb => huniq b (List.mem_cons_of_mem _ hb) hqb)
    · rw [huniq x (List.mem_cons_self x l) hx]

theorem lookup_foldl_prepend {p : Nat → String} {id : String} (hid : id ≠ "") :
    ∀ (l : List Nat) (m0 : List (String × Nat)),
      lookupRow (l.foldl (fun m i => if p i = "" then m else (p i, i) :: m) m0) id =
        match l.reverse.find? (fun i => p i == id) with
        | some i => some i
        | none => lookupRow m0 id := by
  intro l
  induction l with
  | nil => intro m0; rfl
  | cons x l ih =>
    intro m0
    simp only [List.foldl_cons, List.reverse_cons]
    rw [ih, find?_append_match]
    cases hf : l.reverse.find? (fun i => p i == id) with
    | some i => rfl
    | none =>
      simp only [List.find?_cons, List.find?_nil]
      by_cases hx : p x = ""
      · have hq : (p x == id) = false := by
          rw [hx]
          exact beq_false_of_ne (Ne.symm hid)
        rw [hq]
        simp [hx]
      · rw [if_neg hx]
        rcases hq : (p x == id) with _ | _
        · simp only [lookupRow, List.find?_cons]
          have : ((p x, x).1 == id) = false := hq
          rw [this]
        · simp only [lookupRow, List.find?_cons]
          have : ((p x, x).1 == id) = true := hq
          rw [this]
          rfl

theorem lookup_buildMap_closed (idOf : Option α → String) (t : List (Option α))
    {id : String} (hid : id ≠ "") :
    lookupRow (buildMap idOf t) id =
      match (List.range (readCount t)).reverse.find?
          (fun i => idOf (getSlot t i) == id) with
      | some i => some i
      | none => none := by
  unfold buildMap
  rw [lookup_foldl_prepend hid]
  rfl

theorem lookup_buildMap_sound (idOf : Option α → String) (t : List (Option α))
    {id : String} {r : Nat} (hid : id ≠ "")
    (h : lookupRow (buildMap idOf t) id = some r) :
    idOf (getSlot t r) = id ∧ r < readCount t := by
  rw [lookup_buildMap_closed idOf t hid] at h
  cases hf : (List.range (readCount t)).reverse.find? (fun i => idOf (getSlot t i) == id) with
  | none => rw [hf] at h; exact Option.noConfusion h
  | some i =>
    rw [hf] at h
    have hi : i = r := Option.some.inj h
    subst hi
    constructor
    · have := List.find?_some hf
      exact eq_of_beq this
    · have := List.mem_of_find?_eq_some hf
      rw [List.mem_reverse] at this
      exact List.mem_range.mp this

theorem lookup_buildMap_none (idOf : Option α → String) (t : List (Option α))
    {id : String} (hid : id ≠ "")
    (h : lookupRow (buildMap idOf t) id = none) :
    ∀ r, r < readCount t → idOf (getSlot t r) ≠ id := by
  rw [lookup_buildMap_closed idOf t hid] at h
  intro r hr he
  cases hf : (List.range (readCount t)).reverse.find? (fun i => idOf (getSlot t i) == id) with
  | some i => rw [hf] at h; exact Option.noConfusion h
  | none =>
    have := List.find?_eq_none.mp hf r
      (List.mem_reverse.mpr (List.mem_range.mpr hr))
    rw [he] at this
    simp at this

theorem lookup_buildMap_complete (idOf : Option α → String) (t : List (Option α))
    {id : String} {r : Nat} (hid : id ≠ "")
    (hr : idOf (getSlot t r) = id) (hlt : r < readCount t)
    (huniq : ∀ j, j < readCount t → idOf (getSlot t j) = id → j = r) :
    lookupRow (buildMap idOf t) id = some r := by
  rw [lookup_buildMap_closed idOf t hid]
  have hfind : (List.range (readCount t)).reverse.find?
      (fun i => idOf (getSlot t i) == id) = some r := by
    apply find?_eq_some_of_unique
    · exact List.mem_reverse.mpr (List.mem_range.mpr hlt)
    · exact beq_iff_eq.mpr hr
    · intro b hb hqb
      exact huniq b (List.mem_range.mp (List.mem_reverse.mp hb)) (eq_of_beq hqb)
  rw [hfind]

theorem foldl_capped_shape {p : Nat → Bool} {cap : Nat} :
    ∀ (l : List Nat) (acc : List Nat),
      ∃ l', l.foldl (fun hs i => if p i && hs.length < cap then hs ++ [i] else hs) acc =
          acc ++ l' ∧ l'.Sublist l ∧ ∀ x ∈ l', p x = true := by
  intro l
  induction l with
  | nil => intro acc; exact ⟨[], by simp, List.nil_sublist _, by simp⟩
  | cons x l ih =>
    intro acc
    simp only [List.foldl_cons]
    by_cases hx : (p x && decide (acc.length < cap)) = true
    · obtain ⟨l', heq, hsub, hall⟩ := ih (acc ++ [x])
      rw [if_pos hx] at *
      refine ⟨x :: l', by simpa using heq, List.cons_sublist_cons.mpr hsub, ?_⟩
      intro y hy
      rcases List.mem_cons.mp hy with h | h
      · subst h
        rcases hpy : p y with _ | _
        · rw [hpy] at hx; simp at hx
        · rfl
      · exact hall y h
    · obtain ⟨l', heq, hsub, hall⟩ := ih acc
      rw [if_neg hx]
      exact ⟨l', heq, List.sublist_cons_of_sublist x hsub, hall⟩

theorem buildHoles_mem (isHole : Option α → Bool) (t : List (Option α)) (cap : Nat) :
    (∀ h ∈ buildHoles isHole t cap, isHole (getSlot t h) = true ∧ h < readCount t) ∧
    (buildHoles isHole t cap).Nodup := by
  obtain ⟨l', heq, hsub, hall⟩ :=
    @foldl_capped_shape (fun i => isHole (getSlot t i)) cap
      (List.range (readCount t)) []
  have hbh : buildHoles isHole t cap = l' := by
    unfold buildHoles
    rw [heq]
    simp
  constructor
  · intro h hmem
    rw [hbh] at hmem
    exact ⟨hall h hmem, List.mem_range.mp (hsub.subset hmem)⟩
  · rw [hbh]
    exact hsub.nodup (List.nodup_range _)

theorem nodup_append_singleton {x : α} {L : List α} (hx : x ∉ L) (h : L.Nodup) :
    (L ++ [x]).Nodup := by
  have he : L ++ [x] = L ++ x :: [] := rfl
  rw [he, List.nodup_middle]
  exact List.nodup_cons.mpr ⟨by simpa using hx, by simpa using h⟩

theorem incIsHole_iff (s : Option IncStored) : incIsHole s = true ↔ incSlotId s = "" := by
  unfold incIsHole
  exact beq_iff_eq

theorem lookupRow_cons (k : String) (a : Nat) (m : List (String × Nat)) (id : String) :
    lookupRow ((k, a) :: m) id = if k == id then some a else lookupRow m id := by
  simp only [lookupRow, List.find?_cons]
  cases h : (k == id)
  · simp [h]
  · simp [h]

theorem IncInv.updateStep {t : List (Option IncStored)} {st : UpsertState IncStored}
    (hinv : IncInv t st) (e : IncRec) (r : Nat)
    (heid : e.id ≠ "")
    (hWe : ∀ w ∈ st.toUpdate ++ st.toInsert, w.2.id ≠ e.id)
    (hsrc : incSlotId (getSlot t r) = e.id) (hrlt : r < readCount t)
    (hlk : lookupRow st.map e.id = some r) :
    IncInv t { st with toUpdate := st.toUpdate ++ [(r, incValues e)] } := by
  have hveid : (incValues e).id = e.id := rfl
  have hrW : (r : Nat) ∉ (st.toUpdate ++ st.toInsert).map Prod.fst := by
    intro hmem
    obtain ⟨w, hw, hw1⟩ := List.mem_map.mp hmem
    rcases List.mem_append.mp hw with hwu | hwi
    · have hsrcw := hinv.updSrc w hwu
      rw [hw1, hsrc] at hsrcw
      exact hWe w hw hsrcw.symm
    · have hhw := hinv.insHole w hwi
      rw [incIsHole_iff, hw1, hsrc] at hhw
      exact heid hhw
  have hWmem : ∀ w, w ∈ (st.toUpdate ++ [(r, incValues e)]) ++ st.toInsert ↔
      w ∈ st.toUpdate ++ st.toInsert ∨ w = (r, incValues e) := by
    intro w
    simp only [List.mem_append, List.mem_singleton]
    tauto
  constructor
  · have hmap : ((st.toUpdate ++ [(r, incValues e)]) ++ st.toInsert).map Prod.fst =
        st.toUpdate.map Prod.fst ++ r :: st.toInsert.map Prod.fst := by simp
    rw [hmap, List.nodup_middle]
    refine List.nodup_cons.mpr ⟨?_, ?_⟩
    · simpa [List.map_append] using hrW
    · simpa [List.map_append] using hinv.tgtNodup
  · have hmap : ((st.toUpdate ++ [(r, incValues e)]) ++ st.toInsert).map
        (fun w => w.2.id) =
        st.toUpdate.map (fun w => w.2.id) ++ e.id :: st.toInsert.map (fun w => w.2.id) := by
      simp [incValues]
    rw [hmap, List.nodup_middle]
    refine List.nodup_cons.mpr ⟨?_, ?_⟩
    · intro hmem
      rw [← List.map_append] at hmem
      obtain ⟨w, hw, hwid⟩ := List.mem_map.mp hmem
      exact hWe w hw hwid
    · simpa [List.map_append] using hinv.idsNodup
  · intro w hw
    rcases (hWmem w).mp hw with h | h
    · exact hinv.idsNe w h
    · rw [h]; simpa using heid
  · intro w hw
    rcases List.mem_append.mp hw with h | h
    · exact hinv.updSrc w h
    · rw [List.mem_singleton.mp h]
      simpa using hsrc
  · exact hinv.insHole
  · intro w hw
    rcases (hWmem w).mp hw with h | h
    · exact hinv.tgtLe w h
    · rw [h]
      have := hinv.lastRowGe
      simp only
      omega
  · exact hinv.lastRowGe
  · intro h hh
    obtain ⟨h1, h2, h3⟩ := hinv.holesProp h hh
    refine ⟨h1, h2, ?_⟩
    intro hmem
    obtain ⟨w, hw, hw1⟩ := List.mem_map.mp hmem
    rcases (hWmem w).mp hw with hold | hnew
    · exact h3 (List.mem_map.mpr ⟨w, hold, hw1⟩)
    · rw [hnew] at hw1
      simp only at hw1
      rw [incIsHole_iff] at h1
      rw [← hw1, hsrc] at h1
      exact heid h1
  · exact hinv.holesNodup
  · intro id hid hno
    exact hinv.mapNone id hid (fun w hw => hno w ((hWmem w).mpr (Or.inl hw)))
  · intro id hid w hw hwid
    rcases (hWmem w).mp hw with hold | hnew
    · exact hinv.mapSome id hid w hold hwid
    · rw [hnew] at hwid ⊢
      simp only at hwid ⊢
      rw [hveid] at hwid
      rw [← hwid]
      exact hlk

theorem IncInv.insertStep {t : List (Option IncStored)} {st : UpsertState IncStored}
    (hinv : IncInv t st) (e : IncRec) (a : Nat) (holes2 : List Nat) (lastRow2 : Nat)
    (heid : e.id ≠ "")
    (hWe : ∀ w ∈ st.toUpdate ++ st.toInsert, w.2.id ≠ e.id)
    (haW : (a : Nat) ∉ (st.toUpdate ++ st.toInsert).map Prod.fst)
    (hahole : incIsHole (getSlot t a) = true)
    (hale : a ≤ lastRow2)
    (hlastGe : readCount t - 1 ≤ lastRow2)
    (hlastMono : ∀ w ∈ st.toUpdate ++ st.toInsert, w.1 ≤ lastRow2)
    (hholes2 : ∀ h ∈ holes2, incIsHole (getSlot t h) = true ∧ h < readCount t ∧
       h ∉ (st.toUpdate ++ st.toInsert).map Prod.fst ∧ h ≠ a)
    (hholesNd : holes2.Nodup) :
    IncInv t
      { st with
        map := (e.id, a) :: st.map
        holes := holes2
        lastRow := lastRow2
        toInsert := st.toInsert ++ [(a, incValues e)] } := by
  have hveid : (incValues e).id = e.id := rfl
  have hWmem : ∀ w, w ∈ st.toUpdate ++ (st.toInsert ++ [(a, incValues e)]) ↔
      w ∈ st.toUpdate ++ st.toInsert ∨ w = (a, incValues e) := by
    intro w
    simp only [List.mem_append, List.mem_singleton]
    tauto
  constructor
  · have hmap : (st.toUpdate ++ (st.toInsert ++ [(a, incValues e)])).map Prod.fst =
        ((st.toUpdate ++ st.toInsert).map Prod.fst) ++ [a] := by simp
    rw [hmap]
    exact nodup_append_singleton haW hinv.tgtNodup
  · have hmap : (st.toUpdate ++ (st.toInsert ++ [(a, incValues e)])).map
        (fun w => w.2.id) = ((st.toUpdate ++ st.toInsert).map (fun w => w.2.id)) ++ [e.id] := by
      simp [incValues]
    rw [hmap]
    refine nodup_append_singleton ?_ hinv.idsNodup
    intro hmem
    obtain ⟨w, hw, hwid⟩ := List.mem_map.mp hmem
    exact hWe w hw hwid
  · intro w hw
    rcases (hWmem w).mp hw with h | h
    · exact hinv.idsNe w h
    · rw [h]; simpa using heid
  · exact hinv.updSrc
  · intro w hw
    rcases List.mem_append.mp hw with h | h
    · exact hinv.insHole w h
    · rw [List.mem_singleton.mp h]
      simpa using hahole
  · intro w hw
    rcases (hWmem w).mp hw with h | h
    · exact hlastMono w h
    · rw [h]
      simpa using hale
  · exact hlastGe
  · intro h hh
    obtain ⟨h1, h2, h3, h4⟩ := hholes2 h hh
    refine ⟨h1, h2, ?_⟩
    intro hmem
    obtain ⟨w, hw, hw1⟩ := List.mem_map.mp hmem
    rcases (hWmem w).mp hw with hold | hnew
    · exact h3 (List.mem_map.mpr ⟨w, hold, hw1⟩)
    · rw [hnew] at hw1
      simp only at hw1
      exact h4 hw1.symm
  · exact hholesNd
  · intro id hid hno
    have hnea : ¬(e.id == id) = true := by
      intro hbe
      have : e.id = id := eq_of_beq hbe
      exact hno (a, incValues e) ((hWmem _).mpr (Or.inr rfl)) (by simpa using this)
    simp only [lookupRow_cons]
    rw [if_neg hnea]
    exact hinv.mapNone id hid (fun w hw => hno w ((hWmem w).mpr (Or.inl hw)))
  · intro id hid w hw hwid
    rcases (hWmem w).mp hw with hold | hnew
    · have hne2 : ¬(e.id == id) = true := by
        intro hbe
        have heq : e.id = id := eq_of_beq hbe
        exact hWe w hold (by rw [hwid, heq])
      simp only [lookupRow_cons]
      rw [if_neg hne2]
      exact hinv.mapSome id hid w hold hwid
    · rw [hnew] at hwid ⊢
      simp only [hveid] at hwid
      simp only [lookupRow_cons]
      rw [if_pos (by simpa using beq_iff_eq.mpr hwid)]

theorem mem_append_middle {x w : α} {A B : List α} :
    w ∈ (A ++ [x]) ++ B ↔ w ∈ A ++ B ∨ w = x := by
  simp only [List.mem_append, List.mem_singleton]
  tauto

theorem mem_append_last {x w : α} {A B : List α} :
    w ∈ A ++ (B ++ [x]) ↔ w ∈ A ++ B ∨ w = x := by
  simp only [List.mem_append, List.mem_singleton]
  tauto

theorem inc_run_post (t : List (Option IncStored)) :
    ∀ (es : List IncRec) (st : UpsertState IncStored),
      IncInv t st →
      (∀ e ∈ es, incDropped e = false → e.id ≠ "") →
      List.Pairwise (fun a b => incDropped a = false → incDropped b = false → a.id ≠ b.id) es →
      (∀ e ∈ es, incDropped e = false →
        ∀ w ∈ st.toUpdate ++ st.toInsert, w.2.id ≠ e.id) →
      IncInv t (upsertLoop (fun r : IncRec => r.id) incDropped incValues st es) ∧
      (∀ w ∈ st.toUpdate,
        w ∈ (upsertLoop (fun r : IncRec => r.id) incDropped incValues st es).toUpdate) ∧
      (∀ w ∈ st.toInsert,
        w ∈ (upsertLoop (fun r : IncRec => r.id) incDropped incValues st es).toInsert) ∧
      (∀ e ∈ es, incDropped e = false →
        ∃ r, ((r, incValues e) ∈
            (upsertLoop (fun r : IncRec => r.id) incDropped incValues st es).toUpdate ++
              (upsertLoop (fun r : IncRec => r.id) incDropped incValues st es).toInsert) ∧
          ∀ r₀, lookupRow (buildMap incSlotId t) e.id = some r₀ → r = r₀) := by
  intro es
  induction es with
  | nil =>
    intro st hinv _ _ _
    exact ⟨hinv, fun w hw => hw, fun w hw => hw, by simp⟩
  | cons e es ih =>
    intro st hinv hne hpair hfresh
    obtain ⟨hpairHead, hpairTail⟩ := List.pairwise_cons.mp hpair
    have hl : upsertLoop (fun r : IncRec => r.id) incDropped incValues st (e :: es) =
        upsertLoop (fun r : IncRec => r.id) incDropped incValues
          (upsertStep (fun r : IncRec => r.id) incDropped incValues st e) es := rfl
    cases hdrop : incDropped e with
    | true =>
      have hstep : upsertStep (fun r : IncRec => r.id) incDropped incValues st e = st := by
        simp [upsertStep, hdrop]
      rw [hl, hstep]
      obtain ⟨h1, h2, h3, h4⟩ := ih st hinv
        (fun e' he' => hne e' (List.mem_cons_of_mem _ he'))
        hpairTail
        (fun e' he' hd' => hfresh e' (List.mem_cons_of_mem _ he') hd')
      refine ⟨h1, h2, h3, ?_⟩
      intro e' he' hd'
      rcases List.mem_cons.mp he' with he | he
      · rw [he] at hd'
        rw [hd'] at hdrop
        exact Bool.noConfusion hdrop
      · exact h4 e' he hd'
    | false =>
      have heid : e.id ≠ "" := hne e (List.mem_cons_self _ _) hdrop
      have hWe : ∀ w ∈ st.toUpdate ++ st.toInsert, w.2.id ≠ e.id :=
        hfresh e (List.mem_cons_self _ _) hdrop
      have hstep : upsertStep (fun r : IncRec => r.id) incDropped incValues st e =
          upsertPlace (fun r : IncRec => r.id) (incValues e) st e := by
        simp [upsertStep, hdrop]
      rw [hl, hstep]
      have hne' : ∀ e' ∈ es, incDropped e' = false → e'.id ≠ "" :=
        fun e' he' => hne e' (List.mem_cons_of_mem _ he')
      cases hlk : lookupRow st.map e.id with
      | some r =>
        have hplace : upsertPlace (fun r : IncRec => r.id) (incValues e) st e =
            { st with toUpdate := st.toUpdate ++ [(r, incValues e)] } := by
          simp only [upsertPlace]
          rw [hlk]
        rw [hplace]
        have hbase : lookupRow (buildMap incSlotId t) e.id = some r := by
          rw [← hinv.mapNone e.id heid hWe]
          exact hlk
        obtain ⟨hsrc, hrlt⟩ := lookup_buildMap_sound incSlotId t heid hbase
        have hinv' : IncInv t { st with toUpdate := st.toUpdate ++ [(r, incValues e)] } :=
          hinv.updateStep e r heid hWe hsrc hrlt hlk
        have hfresh' : ∀ e' ∈ es, incDropped e' = false →
            ∀ w ∈ ({ st with toUpdate := st.toUpdate ++ [(r, incValues e)] } :
                UpsertState IncStored).toUpdate ++
              ({ st with toUpdate := st.toUpdate ++ [(r, incValues e)] } :
                UpsertState IncStored).toInsert, w.2.id ≠ e'.id := by
          intro e' he' hd' w hw
          rcases mem_append_middle.mp hw with hold | hnew
          · exact hfresh e' (List.mem_cons_of_mem _ he') hd' w hold
          · rw [hnew]
            exact hpairHead e' he' hdrop hd'
        obtain ⟨h1, h2, h3, h4⟩ :=
          ih { st with toUpdate := st.toUpdate ++ [(r, incValues e)] }
            hinv' hne' hpairTail hfresh'
        refine ⟨h1, ?_, ?_, ?_⟩
        · intro w hw
          exact h2 w (List.mem_append_left _ hw)
        · exact h3
        · intro e' he' hd'
          rcases List.mem_cons.mp he' with he | he
          · subst he
            refine ⟨r, ?_, ?_⟩
            · exact List.mem_append_left _
                (h2 _ (List.mem_append_right _ (List.mem_singleton_self _)))
            · intro r₀ h₀
              exact Option.some.inj (hbase.symm.trans h₀)
          · exact h4 e' he hd'
      | none =>
        have hbaseNone : lookupRow (buildMap incSlotId t) e.id = none := by
          rw [← hinv.mapNone e.id heid hWe]
          exact hlk
        cases hh : st.holes with
        | cons h0 hs =>
          have hplace : upsertPlace (fun r : IncRec => r.id) (incValues e) st e =
              { st with
                map := (e.id, h0) :: st.map
                holes := hs
                lastRow := st.lastRow
                toInsert := st.toInsert ++ [(h0, incValues e)] } := by
            simp only [upsertPlace]
            rw [hlk, hh]
          rw [hplace]
          obtain ⟨hp1, hp2, hp3⟩ := hinv.holesProp h0 (by rw [hh]; exact List.mem_cons_self _ _)
          have hndtail := hinv.holesNodup
          rw [hh] at hndtail
          have hndc := List.nodup_cons.mp hndtail
          have hinv' := hinv.insertStep e h0 hs st.lastRow heid hWe hp3 hp1
            (by have := hinv.lastRowGe; omega)
            hinv.lastRowGe hinv.tgtLe
            (by
              intro h hmem
              obtain ⟨q1, q2, q3⟩ := hinv.holesProp h (by rw [hh]; exact List.mem_cons_of_mem _ hmem)
              exact ⟨q1, q2, q3, fun he => hndc.1 (he ▸ hmem)⟩)
            hndc.2
          have hfresh' : ∀ e' ∈ es, incDropped e' = false →
              ∀ w ∈ ({ st with
                  map := (e.id, h0) :: st.map
                  holes := hs
                  lastRow := st.lastRow
                  toInsert := st.toInsert ++ [(h0, incValues e)] } :
                UpsertState IncStored).toUpdate ++
                ({ st with
                  map := (e.id, h0) :: st.map
                  holes := hs
                  lastRow := st.lastRow
                  toInsert := st.toInsert ++ [(h0, incValues e)] } :
                UpsertState IncStored).toInsert, w.2.id ≠ e'.id := by
            intro e' he' hd' w hw
            rcases mem_append_last.mp hw with hold | hnew
            · exact hfresh e' (List.mem_cons_of_mem _ he') hd' w hold
            · rw [hnew]
              exact hpairHead e' he' hdrop hd'
          obtain ⟨h1, h2, h3, h4⟩ :=
            ih _ hinv' hne' hpairTail hfresh'
          refine ⟨h1, h2, ?_, ?_⟩
          · intro w hw
            exact h3 w (List.mem_append_left _ hw)
          · intro e' he' hd'
            rcases List.mem_cons.mp he' with he | he
            · subst he
              refine ⟨h0, ?_, ?_⟩
              · exact List.mem_append_right _
                  (h3 _ (List.mem_append_right _ (List.mem_singleton_self _)))
              · intro r₀ h₀
                rw [hbaseNone] at h₀
                exact Option.noConfusion h₀
            · exact h4 e' he hd'
        | nil =>
          have hplace : upsertPlace (fun r : IncRec => r.id) (incValues e) st e =
              { st with
                map := (e.id, st.lastRow + 1) :: st.map
                holes := ([] : List Nat)
                lastRow := st.lastRow + 1
                toInsert := st.toInsert ++ [(st.lastRow + 1, incValues e)] } := by
            simp only [upsertPlace]
            rw [hlk, hh]
          rw [hplace]
          have hnone : getSlot t (st.lastRow + 1) = none := by
            apply getSlot_eq_none_of_le
            have hlu : lastUsedCount t ≤ readCount t := le_max_left _ _
            have := hinv.lastRowGe
            unfold readCount at *
            omega
          have hinv' := hinv.insertStep e (st.lastRow + 1) [] (st.lastRow + 1) heid hWe
            (by
              intro hmem
              obtain ⟨w, hw, hw1⟩ := List.mem_map.mp hmem
              have := hinv.tgtLe w hw
              omega)
            (by rw [hnone]; rfl)
            (le_refl _)
            (by have := hinv.lastRowGe; omega)
            (by
              intro w hw
              have := hinv.tgtLe w hw
              omega)
            (by intro h hmem; simp at hmem)
            List.nodup_nil
          have hfresh' : ∀ e' ∈ es, incDropped e' = false →
              ∀ w ∈ ({ st with
                  map := (e.id, st.lastRow + 1) :: st.map
                  holes := ([] : List Nat)
                  lastRow := st.lastRow + 1
                  toInsert := st.toInsert ++ [(st.lastRow + 1, incValues e)] } :
                UpsertState IncStored).toUpdate ++
                ({ st with
                  map := (e.id, st.lastRow + 1) :: st.map
                  holes := ([] : List Nat)
                  lastRow := st.lastRow + 1
                  toInsert := st.toInsert ++ [(st.lastRow + 1, incValues e)] } :
                UpsertState IncStored).toInsert, w.2.id ≠ e'.id := by
            intro e' he' hd' w hw
            rcases mem_append_last.mp hw with hold | hnew
            · exact hfresh e' (List.mem_cons_of_mem _ he') hd' w hold
            · rw [hnew]
              exact hpairHead e' he' hdrop hd'
          obtain ⟨h1, h2, h3, h4⟩ :=
            ih _ hinv' hne' hpairTail hfresh'
          refine ⟨h1, h2, ?_, ?_⟩
          · intro w hw
            exact h3 w (List.mem_append_left _ hw)
          · intro e' he' hd'
            rcases List.mem_cons.mp he' with he | he
            · subst he
              refine ⟨st.lastRow + 1, ?_, ?_⟩
              · exact List.mem_append_right _
                  (h3 _ (List.mem_append_right _ (List.mem_singleton_self _)))
              · intro r₀ h₀
                rw [hbaseNone] at h₀
                exact Option.noConfusion h₀
            · exact h4 e' he hd'

theorem IncInv.init (t : List (Option IncStored)) (cap : Nat) :
    IncInv t (initState incSlotId incIsHole t cap) := by
  refine ⟨?_, ?_, ?_, ?_, ?_, ?_, ?_, ?_, ?_, ?_, ?_⟩
  · simp [initState]
  · simp [initState]
  · intro w hw; simp [initState] at hw
  · intro w hw; simp [initState] at hw
  · intro w hw; simp [initState] at hw
  · intro w hw; simp [initState] at hw
  · exact le_refl _
  · intro h hh
    obtain ⟨p1, p2⟩ := (buildHoles_mem incIsHole t cap).1 h hh
    exact ⟨p1, p2, by simp [initState]⟩
  · exact (buildHoles_mem incIsHole t cap).2
  · intro id _ _; rfl
  · intro id _ w hw; simp [initState] at hw

theorem inc_bridge (t : List (Option IncStored)) (es : List IncRec)
    (huniq : UniqueIds t) (hvd : ValidDistinct es) :
    ∀ e ∈ es, incDropped e = false →
      ∃ r, lookupRow (buildMap incSlotId (saveBatchIncomeCore t es).1) e.id = some r ∧
        getSlot (saveBatchIncomeCore t es).1 r = some (incValues e) := by
  obtain ⟨hinvf, -, -, hcov⟩ :=
    inc_run_post t es (initState incSlotId incIsHole t es.length)
      (IncInv.init t es.length) hvd.1 hvd.2
      (by intro e _ _ w hw; simp [initState] at hw)
  intro e he hd
  have heid : e.id ≠ "" := hvd.1 e he hd
  obtain ⟨r, hrW, hr0⟩ := hcov e he hd
  have ht1 : (saveBatchIncomeCore t es).1 =
      applyWrites t
        ((upsertLoop (fun r : IncRec => r.id) incDropped incValues
            (initState incSlotId incIsHole t es.length) es).toUpdate ++
         (upsertLoop (fun r : IncRec => r.id) incDropped incValues
            (initState incSlotId incIsHole t es.length) es).toInsert) := rfl
  rw [ht1]
  set stf := upsertLoop (fun r : IncRec => r.id) incDropped incValues
    (initState incSlotId incIsHole t es.length) es with hstf
  set Wf := stf.toUpdate ++ stf.toInsert with hWf
  have hveid : (incValues e).id = e.id := rfl
  have hslot : getSlot (applyWrites t Wf) r = some (incValues e) :=
    getSlot_applyWrites_mem t Wf r (incValues e) hinvf.tgtNodup hrW
  have hrlt1 : r < readCount (applyWrites t Wf) :=
    lt_of_lt_of_le (lt_lastUsedCount_of_getSlot _ r _ hslot) (le_max_left _ _)
  have huniq1 : ∀ j, j < readCount (applyWrites t Wf) →
      incSlotId (getSlot (applyWrites t Wf) j) = e.id → j = r := by
    intro j hj hjid
    by_cases hjW : j ∈ Wf.map Prod.fst
    · obtain ⟨w, hw, hw1⟩ := List.mem_map.mp hjW
      have hwmem : (j, w.2) ∈ Wf := by
        rw [← hw1]
        simpa using hw
      have hslotj : getSlot (applyWrites t Wf) j = some w.2 :=
        getSlot_applyWrites_mem t Wf j w.2 hinvf.tgtNodup hwmem
      rw [hslotj] at hjid
      have hideq : ((j, w.2) : Nat × IncStored).2.id = ((r, incValues e) : Nat × IncStored).2.id := by
        simpa [hveid] using hjid
      have := List.inj_on_of_nodup_map hinvf.idsNodup hwmem hrW hideq
      exact congrArg Prod.fst this
    · have hslotj : getSlot (applyWrites t Wf) j = getSlot t j :=
        getSlot_applyWrites_not_mem t Wf j hjW
      rw [hslotj] at hjid
      by_cases hjrc : j < readCount t
      · cases hbase : lookupRow (buildMap incSlotId t) e.id with
        | none =>
          exact absurd hjid (lookup_buildMap_none incSlotId t heid hbase j hjrc)
        | some r₀ =>
          have hrr₀ : r = r₀ := hr0 r₀ hbase
          obtain ⟨hsrc₀, hlt₀⟩ := lookup_buildMap_sound incSlotId t heid hbase
          cases hsj : getSlot t j with
          | none => rw [hsj] at hjid; exact absurd hjid.symm heid
          | some vj =>
            cases hs₀ : getSlot t r₀ with
            | none =>
              rw [hs₀] at hsrc₀
              exact absurd hsrc₀.symm heid
            | some v₀ =>
              rw [hsj] at hjid
              rw [hs₀] at hsrc₀
              have := huniq j r₀ vj v₀ hsj hs₀
                (by
                  have h1 : vj.id = e.id := hjid
                  rw [h1]
                  exact heid)
                (by
                  show vj.id = v₀.id
                  have h1 : vj.id = e.id := hjid
                  have h2 : v₀.id = e.id := hsrc₀
                  rw [h1, h2])
              rw [this, hrr₀]
      · have hnone : getSlot t j = none := by
          apply getSlot_eq_none_of_le
          have : lastUsedCount t ≤ readCount t := le_max_left _ _
          omega
        rw [hnone] at hjid
        exact absurd hjid.symm heid
  refine ⟨r, ?_, hslot⟩
  exact lookup_buildMap_complete incSlotId (applyWrites t Wf) heid
    (by rw [hslot]; exact hveid) hrlt1 huniq1

theorem inc_run2 (t1 : List (Option IncStored)) :
    ∀ (es : List IncRec) (st : UpsertState IncStored),
      st.toInsert = [] →
      (∀ e ∈ es, incDropped e = false →
        ∃ r, lookupRow st.map e.id = some r ∧ getSlot t1 r = some (incValues e)) →
      (∀ w ∈ st.toUpdate, getSlot t1 w.1 = some w.2) →
      (upsertLoop (fun r : IncRec => r.id) incDropped incValues st es).toInsert = [] ∧
      (upsertLoop (fun r : IncRec => r.id) incDropped incValues st es).toUpdate.length =
        st.toUpdate.length + (es.filter (fun e => !incDropped e)).length ∧
      (∀ w ∈ (upsertLoop (fun r : IncRec => r.id) incDropped incValues st es).toUpdate,
        getSlot t1 w.1 = some w.2) := by
  intro es
  induction es with
  | nil =>
    intro st hI hhit hOK
    exact ⟨hI, by simp [upsertLoop], hOK⟩
  | cons e es ih =>
    intro st hI hhit hOK
    have hl : upsertLoop (fun r : IncRec => r.id) incDropped incValues st (e :: es) =
        upsertLoop (fun r : IncRec => r.id) incDropped incValues
          (upsertStep (fun r : IncRec => r.id) incDropped incValues st e) es := rfl
    cases hdrop : incDropped e with
    | true =>
      have hstep : upsertStep (fun r : IncRec => r.id) incDropped incValues st e = st := by
        simp [upsertStep, hdrop]
      rw [hl, hstep]
      obtain ⟨p1, p2, p3⟩ := ih st hI
        (fun e' he' => hhit e' (List.mem_cons_of_mem _ he')) hOK
      refine ⟨p1, ?_, p3⟩
      rw [p2]
      simp [List.filter_cons, hdrop]
    | false =>
      obtain ⟨r, hlk, hslot⟩ := hhit e (List.mem_cons_self _ _) hdrop
      have hstep : upsertStep (fun r : IncRec => r.id) incDropped incValues st e =
          { st with toUpdate := st.toUpdate ++ [(r, incValues e)] } := by
        simp only [upsertStep, hdrop, Bool.false_eq_true, if_false, upsertPlace]
        rw [hlk]
      rw [hl, hstep]
      obtain ⟨p1, p2, p3⟩ := ih { st with toUpdate := st.toUpdate ++ [(r, incValues e)] }
        hI (fun e' he' => hhit e' (List.mem_cons_of_mem _ he'))
        (by
          intro w hw
          rcases List.mem_append.mp hw with hold | hnew
          · exact hOK w hold
          · rw [List.mem_singleton.mp hnew]
            exact hslot)
      refine ⟨p1, ?_, p3⟩
      rw [p2]
      simp only [List.length_append, List.length_singleton, List.filter_cons, hdrop]
      simp
      omega

theorem upsertLoopE_single (cats : List Category) (e : ExpRec) (v : ExpStored)
    (hd : expDropped e = false) (hv : expValues cats e = .ok v)
    (st : UpsertState ExpStored) :
    upsertLoopE (fun r : ExpRec => r.transactionId) expDropped (expValues cats) st [e] =
      .ok (upsertPlace (fun r : ExpRec => r.transactionId) v st e) := by
  simp only [upsertLoopE, hd, Bool.false_eq_true, if_false, hv]

theorem readCount_sub_one_add_one (t : List (Option α)) :
    readCount t - 1 + 1 = readCount t := by
  unfold readCount
  omega

/-! ## Claim theorems -/

/-- C1: for an email present in the trial ledger, `checkTrialStatus`
derives the status as specified: a blank end date means paid; an end date
exactly five days after the current time gives trial with daysLeft 5; an
end date before the current time gives expired with daysLeft 0; and the
day difference is always clamped below at 0. -/
theorem checkTrialStatus_derivation (led : List TrialRow) (now : Int) (email : String)
    (i : Nat) (hemail : email ≠ "") (hfind : findTrialRow led email = some i) :
    ((trialRowAt led i).endDate = DateCell.blank →
      (checkTrialStatus led now email).1 = ⟨"paid", none, none⟩) ∧
    ((trialRowAt led i).endDate = DateCell.time (now + 5 * msPerDay) →
      (checkTrialStatus led now email).1 = ⟨"trial", some 5, none⟩) ∧
    (∀ ms, (trialRowAt led i).endDate = DateCell.time ms → ms < now →
      (checkTrialStatus led now email).1 = ⟨"expired", some 0, none⟩) ∧
    (∀ ms, (trialRowAt led i).endDate = DateCell.time ms →
      ∃ d, (checkTrialStatus led now email).1.daysLeft = some d ∧ 0 ≤ d) := by
  have hres : (checkTrialStatus led now email).1 = deriveTrialStatus (trialRowAt led i) now := by
    simp only [checkTrialStatus, if_neg hemail, hfind]
  refine ⟨?_, ?_, ?_, ?_⟩
  · intro hend
    rw [hres]
    simp [deriveTrialStatus, hend]
  · intro hend
    rw [hres]
    simp only [deriveTrialStatus, hend]
    have h5 : now + 5 * msPerDay - now = 5 * msPerDay := by ring
    rw [h5, jsCeilDiv_mul_cancel 5 msPerDay (by norm_num [msPerDay])]
    norm_num
  · intro ms hend hlt
    rw [hres]
    simp only [deriveTrialStatus, hend]
    have hle : jsCeilDiv (ms - now) msPerDay ≤ 0 :=
      jsCeilDiv_nonpos _ _ (by omega) (by norm_num [msPerDay])
    have hmax : max (0 : Int) (jsCeilDiv (ms - now) msPerDay) = 0 := by omega
    rw [hmax]
    norm_num
  · intro ms hend
    rw [hres]
    simp only [deriveTrialStatus, hend]
    refine ⟨max 0 (jsCeilDiv (ms - now) msPerDay), ?_, le_max_left 0 _⟩
    split <;> rfl

/-- Closed instances of C1: paid, trial-in-5-days and expired-yesterday
derivations on one-row ledgers. -/
theorem checkTrialStatus_derivation_witness :
    (checkTrialStatus [⟨obfuscateEmail "user@example.com", .time 0, .blank, .blank⟩]
        0 "user@example.com").1 = ⟨"paid", none, none⟩ ∧
    (checkTrialStatus [⟨obfuscateEmail "user@example.com", .time 0, .time (5 * msPerDay), .blank⟩]
        0 "user@example.com").1 = ⟨"trial", some 5, none⟩ ∧
    (checkTrialStatus [⟨obfuscateEmail "user@example.com", .time 0, .time (-msPerDay), .blank⟩]
        0 "user@example.com").1 = ⟨"expired", some 0, none⟩ := by
  refine ⟨?_, ?_, ?_⟩
  · exact (checkTrialStatus_derivation _ 0 "user@example.com" 0 (by decide) (by decide)).1
      (by decide)
  · have h := (checkTrialStatus_derivation
      [⟨obfuscateEmail "user@example.com", .time 0, .time (5 * msPerDay), .blank⟩]
      0 "user@example.com" 0 (by decide) (by decide)).2.1
    exact h (by decide)
  · exact (checkTrialStatus_derivation _ 0 "user@example.com" 0 (by decide) (by decide)).2.2.1
      (-msPerDay) (by decide) (by norm_num [msPerDay])

/-- Counterexample to C2 as stated: after `recordFirstUse` reports a
30-day trial for a fresh email, a `checkTrialStatus` one day later derives
paid, not trial, because the stored entry has no end date. -/
theorem recordFirstUse_then_paid_cex :
    (recordFirstUse [] 0 "user@example.com").1 = ⟨"trial", some 30, none⟩ ∧
    (checkTrialStatus (recordFirstUse [] 0 "user@example.com").2 86400000
        "user@example.com").1 = ⟨"paid", none, none⟩ := by
  exact ⟨by decide, by decide⟩

/-- C2 (amended): for a fresh email, `recordFirstUse` appends a ledger row
whose end-date cell is left blank and returns trial with daysLeft 30; since
a blank end date derives paid, any subsequent `checkTrialStatus` on that
email reports paid rather than trial. -/
theorem recordFirstUse_blank_end_date (led : List TrialRow) (now now2 : Int)
    (email : String) (hemail : email ≠ "")
    (hrt : decodeObfuscatedEmail (obfuscateEmail email) = email)
    (hnone : findTrialRow led email = none)
    (hidx : nextEmptyIdx led < trialWindow) :
    (recordFirstUse led now email).1 = ⟨"trial", some 30, none⟩ ∧
    (trialRowAt (recordFirstUse led now email).2 (nextEmptyIdx led)).endDate =
      DateCell.blank ∧
    (checkTrialStatus (recordFirstUse led now email).2 now2 email).1 =
      ⟨"paid", none, none⟩ := by
  have hrec : recordFirstUse led now email =
      (⟨"trial", some 30, none⟩,
       setTrialRow led (nextEmptyIdx led)
         ⟨obfuscateEmail email, .time now, .blank, .time now⟩) := by
    simp only [recordFirstUse, if_neg hemail, hnone, recordFreshUser]
  have hall : ∀ j ∈ List.range trialWindow,
      ¬(decodeObfuscatedEmail (trialRowAt led j).emailCell == email) = true := by
    have := List.find?_eq_none.mp hnone
    exact this
  have hfind2 : findTrialRow (recordFirstUse led now email).2 email =
      some (nextEmptyIdx led) := by
    rw [hrec]
    unfold findTrialRow
    apply find?_range_eq_some hidx
    · intro j hj
      rw [trialRowAt_setTrialRow_ne led (nextEmptyIdx led) j _ (by omega)]
      have := hall j (List.mem_range.mpr (by omega))
      simpa using this
    · rw [trialRowAt_setTrialRow_self]
      simp [hrt]
  refine ⟨by rw [hrec], ?_, ?_⟩
  · rw [hrec]
    simp only [trialRowAt_setTrialRow_self]
  · simp only [checkTrialStatus, if_neg hemail, hfind2]
    rw [hrec]
    simp only [trialRowAt_setTrialRow_self]
    rfl

/-- Closed instance of C2 (amended) on the empty ledger. -/
theorem recordFirstUse_blank_end_date_witness :
    (recordFirstUse [] 0 "user@example.com").1 = ⟨"trial", some 30, none⟩ ∧
    (trialRowAt (recordFirstUse [] 0 "user@example.com").2 (nextEmptyIdx [])).endDate =
      DateCell.blank ∧
    (checkTrialStatus (recordFirstUse [] 0 "user@example.com").2 86400000
        "user@example.com").1 = ⟨"paid", none, none⟩ :=
  recordFirstUse_blank_end_date [] 0 86400000 "user@example.com" (by decide) (by decide)
    (by decide) (by decide)

/-- C10: `clearNetWorthRow` never returns success: the success-path object
literal reads an undefined `timestamp` and the resulting ReferenceError is
converted to a failure result, after the matched row has already been
cleared (columns C..K) and the netWorth timestamp updated - so a failure
result does not imply the store was left unchanged. -/
theorem clearNetWorthRow_never_success :
    (∀ (sheet : Option (List (Option NWStored))) (led : TsLedger) (now id : String),
      (clearNetWorthRow sheet led now id).2.2.success = false) ∧
    (∀ (t : List (Option NWStored)) (led : TsLedger) (now id : String) (i : Nat),
      nwFindRow t id = some i →
      clearNetWorthRow (some t) led now id =
        (some (clearSlot t i), updateDataTimestamp led "netWorth" now,
         ⟨false, "ReferenceError: timestamp is not defined", some i⟩)) := by
  constructor
  · intro sheet led now id
    cases sheet with
    | none => rfl
    | some t =>
      simp only [clearNetWorthRow]
      cases nwFindRow t id <;> rfl
  · intro t led now id i hfind
    simp only [clearNetWorthRow, hfind]

/-- Closed instance of C10: on a one-row table the matched row is cleared,
the netWorth timestamp written, and the result still reports failure. -/
theorem clearNetWorthRow_never_success_witness :
    clearNetWorthRow (some [some ⟨"NW-1", "2025-01", "Cash", "t", "Wallet", 100, "", 0, ""⟩])
        (⟨"a", "b", "c", "OLD", "e", "f", "g"⟩ : TsLedger) "NEW" "NW-1" =
      (some [none], ⟨"NEW", "b", "c", "OLD", "e", "f", "g"⟩,
       ⟨false, "ReferenceError: timestamp is not defined", some 0⟩) :=
  clearNetWorthRow_never_success.2
    [some ⟨"NW-1", "2025-01", "Cash", "t", "Wallet", 100, "", 0, ""⟩]
    ⟨"a", "b", "c", "OLD", "e", "f", "g"⟩ "NEW" "NW-1" 0 (by decide)

/-- Counterexample to C8 as stated: a batch upsert of net worth entries
updates the netWorth timestamp but leaves the umbrella masterData
timestamp untouched. -/
theorem saveBatchNetWorth_masterData_untouched_cex :
    (saveBatchNetWorth (some ([] : List (Option NWStored)))
        (⟨"a", "b", "c", "OLD", "e", "f", "g"⟩ : TsLedger) (fun _ => "GEN") "NEW"
        [⟨"x1", "", "2025-01", "Cash", "Asset", "Wallet", JSVal.num 5, "", JSVal.undef, ""⟩]).2.1 =
      ⟨"NEW", "b", "c", "OLD", "e", "f", "g"⟩ := by
  rfl

/-- C8 (amended): `saveBatchIncome` touches both the income and masterData
timestamps and `saveBatchExpenses` touches masterData, but
`saveBatchNetWorth` touches only the netWorth timestamp, leaving
masterData unchanged. -/
theorem mutating_ops_timestamp_touch :
    (∀ (t : List (Option NWStored)) (led : TsLedger) (genId : Nat → String)
       (now : String) (es : List NWRec),
      (saveBatchNetWorth (some t) led genId now es).2.1.netWorth = now ∧
      (saveBatchNetWorth (some t) led genId now es).2.1.masterData = led.masterData) ∧
    (∀ (t : List (Option IncStored)) (led : TsLedger) (now : String) (es : List IncRec)
       (t2 : List (Option IncStored)) (led2 : TsLedger) (res : SaveResult),
      saveBatchIncome (some t) led now es = .ok (t2, led2, res) →
      led2.income = now ∧ led2.masterData = now) := by
  constructor
  · intro t led genId now es
    exact ⟨rfl, rfl⟩
  · intro t led now es t2 led2 res h
    simp only [saveBatchIncome, Except.ok.injEq, Prod.mk.injEq] at h
    obtain ⟨-, hled, -⟩ := h
    subst hled
    exact ⟨rfl, rfl⟩

/-- Closed instance of C8 (amended) at a one-record income batch. -/
theorem mutating_ops_timestamp_touch_witness :
    ((saveBatchIncome (some ([] : List (Option IncStored)))
        (⟨"a", "b", "c", "OLD", "e", "f", "OLDINC"⟩ : TsLedger) "NEW"
        [⟨"i1", "1-Jul-2025", JSVal.num 5, "Pay", "", "", "Job", ""⟩]) =
      .ok ([some ⟨"i1", "1-Jul-2025", some 5, "Pay", "Other", "Job", ""⟩],
           ⟨"a", "b", "c", "NEW", "e", "f", "NEW"⟩,
           ⟨true, 0, 1, 0, ""⟩)) ∧
    (⟨"a", "b", "c", "NEW", "e", "f", "NEW"⟩ : TsLedger).income = "NEW" ∧
    (⟨"a", "b", "c", "NEW", "e", "f", "NEW"⟩ : TsLedger).masterData = "NEW" := by
  refine ⟨by rfl, ?_⟩
  exact mutating_ops_timestamp_touch.2 [] ⟨"a", "b", "c", "OLD", "e", "f", "OLDINC"⟩ "NEW"
    [⟨"i1", "1-Jul-2025", JSVal.num 5, "Pay", "", "", "Job", ""⟩]
    [some ⟨"i1", "1-Jul-2025", some 5, "Pay", "Other", "Job", ""⟩]
    ⟨"a", "b", "c", "NEW", "e", "f", "NEW"⟩ ⟨true, 0, 1, 0, ""⟩ (by rfl)

/-- Counterexample to C7 as stated: `saveBatchExpenses` on a missing
backing sheet does not return a structured result; the rethrown exception
escapes the function (no try/catch at its boundary). -/
theorem saveBatchExpenses_missing_sheet_throws_cex :
    saveBatchExpenses none [] (⟨"a", "b", "c", "d", "e", "f", "g"⟩ : TsLedger) "NEW" [] =
      .error "No spreadsheet ID found" := by
  rfl

/-- C7 (amended): operations wrapped in their own try/catch
(`saveBatchNetWorth`, the clear operations) convert a missing sheet into a
structured failure result, but `saveBatchExpenses` and `saveBatchIncome`
have no try/catch, so a missing sheet or an unknown referenced category
escapes to the caller as an exception. -/
theorem error_boundary_policy :
    (∀ (led : TsLedger) (genId : Nat → String) (now : String) (es : List NWRec),
      (saveBatchNetWorth none led genId now es).2.2 =
        ⟨false, 0, 0, 0, [], "", "Error: No spreadsheet ID found"⟩) ∧
    (∀ (led : TsLedger) (now id : String),
      (clearNetWorthRow none led now id).2.2.success = false ∧
      (clearTransactionRow none led now id).2.2.success = false) ∧
    (∀ (cats : List Category) (led : TsLedger) (now : String) (es : List ExpRec),
      saveBatchExpenses none cats led now es = .error "No spreadsheet ID found") ∧
    (∀ (led : TsLedger) (now : String) (es : List IncRec),
      saveBatchIncome none led now es = .error "No spreadsheet ID found") ∧
    (∀ (t : List (Option ExpStored)) (cats : List Category) (led : TsLedger)
       (now : String) (e : ExpRec),
      expDropped e = false →
      cats.find? (fun c => c.fullName == e.category || c.name == e.category) = none →
      saveBatchExpenses (some t) cats led now [e] =
        .error ("Category not found: " ++ e.category)) := by
  refine ⟨fun _ _ _ _ => rfl, fun _ _ _ => ⟨rfl, rfl⟩, fun _ _ _ _ => rfl,
    fun _ _ _ => rfl, ?_⟩
  intro t cats led now e hdrop hcat
  simp only [saveBatchExpenses, upsertLoopE, hdrop, Bool.false_eq_true, if_false,
    expValues, getZategoryFromCache, hcat]

/-- Closed instance of C7 (amended): a valid expense naming an unknown
category makes the whole batch call throw. -/
theorem error_boundary_policy_witness :
    saveBatchExpenses (some ([] : List (Option ExpStored))) []
        (⟨"a", "b", "c", "d", "e", "f", "g"⟩ : TsLedger) "NEW"
        [⟨"a1", "1-Jul-2025", JSVal.num 5, "Ghost", "n", "", "", "", ""⟩] =
      .error "Category not found: Ghost" :=
  error_boundary_policy.2.2.2.2 [] [] ⟨"a", "b", "c", "d", "e", "f", "g"⟩ "NEW"
    ⟨"a1", "1-Jul-2025", JSVal.num 5, "Ghost", "n", "", "", "", ""⟩ (by decide) (by decide)

/-- Counterexample to C4 as stated: two records sharing a fresh ID are
assigned the same slot, but after the batch the slot holds the EARLIER
record's values (amount 5, name "first"), not the later record's (amount 7,
name "second"): updates are flushed before inserts. -/
theorem saveBatchExpenses_later_record_loses_cex :
    saveBatchExpenses (some ([] : List (Option ExpStored)))
        [⟨"Food", "Food X", "=zategory1"⟩]
        (⟨"a", "b", "c", "d", "e", "f", "g"⟩ : TsLedger) "NEW"
        [⟨"a1", "1-Jul-2025", JSVal.num 5, "Food", "first", "", "", "", ""⟩,
         ⟨"a1", "1-Jul-2025", JSVal.num 7, "Food", "second", "", "", "", ""⟩] =
      .ok ([some ⟨"a1", "1-Jul-2025", some 5, "=zategory1", "first", "", "", "Other"⟩],
           ⟨"a", "b", "c", "NEW", "e", "f", "g"⟩, ⟨true, 1, 1, 0, ""⟩) ∧
    (⟨"a1", "1-Jul-2025", some 5, "=zategory1", "first", "", "", "Other"⟩ : ExpStored) ≠
      ⟨"a1", "1-Jul-2025", some 7, "=zategory1", "second", "", "", "Other"⟩ := by
  exact ⟨by rfl, by decide⟩

/-- C4 (amended): in `saveBatchExpenses`, when two input records share an
ID not already occupying a slot, both are assigned the same target slot
(the later one resolves the map entry the earlier one created), but the
slot ends up holding the earlier record's values, because the one write
buffered as an update is flushed before the one buffered as an insert. -/
theorem saveBatchExpenses_duplicate_fresh_id (t : List (Option ExpStored))
    (cats : List Category) (led : TsLedger) (now : String) (e1 e2 : ExpRec)
    (v1 v2 : ExpStored)
    (hid : e2.transactionId = e1.transactionId)
    (hfresh : lookupRow (buildMap expSlotId t) e1.transactionId = none)
    (hd1 : expDropped e1 = false) (hd2 : expDropped e2 = false)
    (hv1 : expValues cats e1 = .ok v1) (hv2 : expValues cats e2 = .ok v2) :
    ∃ target,
      saveBatchExpenses (some t) cats led now [e1, e2] =
        .ok (setSlot t target v1, updateDataTimestamp led "masterData" now,
             ⟨true, 1, 1, 0, ""⟩) := by
  obtain ⟨target, st2, hloop, hU2, hI2⟩ :=
    upsertLoopE_pair_dup cats e1 e2 v1 v2 hid hd1 hd2 hv1 hv2
      (initState expSlotId expIsHole t [e1, e2].length) hfresh rfl rfl
  refine ⟨target, ?_⟩
  simp only [saveBatchExpenses, hloop, hU2, hI2]
  simp only [applyWrites, List.cons_append, List.nil_append, List.foldl_cons,
    List.foldl_nil, setSlot_setSlot, List.length_cons, List.length_nil]
  norm_num

/-- Closed instance of C4 (amended) on the empty table. -/
theorem saveBatchExpenses_duplicate_fresh_id_witness :
    ∃ target,
      saveBatchExpenses (some ([] : List (Option ExpStored)))
          [⟨"Food", "Food X", "=zategory1"⟩]
          (⟨"a", "b", "c", "d", "e", "f", "g"⟩ : TsLedger) "NEW"
          [⟨"a1", "1-Jul-2025", JSVal.num 5, "Food", "first", "", "", "", ""⟩,
           ⟨"a1", "1-Jul-2025", JSVal.num 7, "Food", "second", "", "", "", ""⟩] =
        .ok (setSlot [] target
               ⟨"a1", "1-Jul-2025", some 5, "=zategory1", "first", "", "", "Other"⟩,
             updateDataTimestamp ⟨"a", "b", "c", "d", "e", "f", "g"⟩ "masterData" "NEW",
             ⟨true, 1, 1, 0, ""⟩) :=
  saveBatchExpenses_duplicate_fresh_id []
    [⟨"Food", "Food X", "=zategory1"⟩] ⟨"a", "b", "c", "d", "e", "f", "g"⟩ "NEW"
    ⟨"a1", "1-Jul-2025", JSVal.num 5, "Food", "first", "", "", "", ""⟩
    ⟨"a1", "1-Jul-2025", JSVal.num 7, "Food", "second", "", "", "", ""⟩
    ⟨"a1", "1-Jul-2025", some 5, "=zategory1", "first", "", "", "Other"⟩
    ⟨"a1", "1-Jul-2025", some 7, "=zategory1", "second", "", "", "Other"⟩
    (by decide) (by decide) (by decide) (by decide) (by rfl) (by rfl)

/-- Counterexample to C9 as stated: `clearTransactionRow` performs no
substring fallback: with a row whose id cell contains the identifier as a
proper substring, it reports not-found and leaves the table unchanged. -/
theorem clearTransactionRow_no_substring_fallback_cex :
    substrIn "BC-1" "ABC-123" = true ∧
    clearTransactionRow
        (some [some ⟨"ABC-123", "d", some 5, "=z", "n", "", "", "Other"⟩])
        (⟨"a", "b", "c", "d", "e", "f", "g"⟩ : TsLedger) "NEW" "BC-1" =
      (some [some ⟨"ABC-123", "d", some 5, "=z", "n", "", "", "Other"⟩],
       ⟨"a", "b", "c", "d", "e", "f", "g"⟩,
       ⟨false, "Transaction not found: BC-1", none⟩) := by
  exact ⟨by decide, by rfl⟩

/-- C9 (amended): only `clearNetWorthRow` falls back to a substring scan
across the truthy cells of each row (clearing the first such row, with the
failure report of C10); `clearTransactionRow` and `clearIncomeRow` match
whole cells only, case-insensitively, and report not-found whenever no
exact whole-cell match exists. -/
theorem clear_fallback_only_netWorth :
    (∀ (t : List (Option NWStored)) (led : TsLedger) (now id : String) (i : Nat),
      (List.range (readCount t)).find? (fun j => nwSlotId (getSlot t j) == id) = none →
      (List.range (readCount t)).find? (fun j =>
          match getSlot t j with
          | none => false
          | some r => (nwCells r).any (fun c => c.2 && substrIn id c.1)) = some i →
      clearNetWorthRow (some t) led now id =
        (some (clearSlot t i), updateDataTimestamp led "netWorth" now,
         ⟨false, "ReferenceError: timestamp is not defined", some i⟩)) ∧
    (∀ (t : List (Option NWStored)) (led : TsLedger) (now id : String),
      nwFindRow t id = none →
      clearNetWorthRow (some t) led now id =
        (some t, led, ⟨false, "Net worth entry not found: " ++ id, none⟩)) ∧
    (∀ (t : List (Option ExpStored)) (led : TsLedger) (now id : String),
      findExactRow expCellStrings t id = none →
      clearTransactionRow (some t) led now id =
        (some t, led, ⟨false, "Transaction not found: " ++ id, none⟩)) ∧
    (∀ (t : List (Option IncStored)) (led : TsLedger) (now id : String),
      findExactRow incCellStrings t id = none →
      clearIncomeRow (some t) led now id =
        (some t, led, ⟨false, "Income transaction not found: " ++ id, none⟩)) := by
  refine ⟨?_, ?_, ?_, ?_⟩
  · intro t led now id i hexact hsub
    simp only [clearNetWorthRow, nwFindRow, hexact, hsub]
  · intro t led now id hfind
    simp only [clearNetWorthRow, hfind]
  · intro t led now id hfind
    simp only [clearTransactionRow, hfind]
  · intro t led now id hfind
    simp only [clearIncomeRow, hfind]

/-- Closed instance of C9 (amended): the net worth substring fallback fires
on a row whose name cell contains the identifier. -/
theorem clear_fallback_only_netWorth_witness :
    clearNetWorthRow (some [some ⟨"NW-1", "2025-01", "Cash", "t", "Wallet", 100, "", 0, ""⟩])
        (⟨"a", "b", "c", "d", "e", "f", "g"⟩ : TsLedger) "NEW" "alle" =
      (some [none], ⟨"NEW", "b", "c", "d", "e", "f", "g"⟩,
       ⟨false, "ReferenceError: timestamp is not defined", some 0⟩) :=
  clear_fallback_only_netWorth.1
    [some ⟨"NW-1", "2025-01", "Cash", "t", "Wallet", 100, "", 0, ""⟩]
    ⟨"a", "b", "c", "d", "e", "f", "g"⟩ "NEW" "alle" 0 (by decide) (by decide)

/-- Counterexample to C3 as stated: a net worth entry with a strictly
negative amount is not dropped: it is inserted, written to a slot and
counted. -/
theorem saveBatchNetWorth_keeps_nonpositive_cex :
    saveBatchNetWorth (some ([] : List (Option NWStored)))
        (⟨"a", "b", "c", "d", "e", "f", "g"⟩ : TsLedger) (fun _ => "GEN") "NEW"
        [⟨"x1", "", "2025-01", "Cash", "Asset", "Wallet", JSVal.num (-5), "", JSVal.undef, ""⟩] =
      (some [some ⟨"x1", "2025-01", "Cash", "Asset", "Wallet", -5, "", 0, ""⟩],
       ⟨"NEW", "b", "c", "d", "e", "f", "g"⟩,
       ⟨true, 0, 1, 1, [⟨"x1", "2025-01", "Cash", "Asset", "Wallet", -5, "", 0, ""⟩],
        "NEW", ""⟩) := by
  rfl

/-- C3 (amended): the savers drop exactly what their own guards reject.
`saveBatchExpenses` and `saveBatchIncome` drop a record iff its amount is
falsy or coerces to a number at most 0 (a NaN coercion is kept);
`saveBatchNetWorth` drops a record iff its amount is undefined or fails
`parseFloat` (non-positive parsed amounts are kept).  A dropped record
produces no write and contributes to neither the updated nor the inserted
count (it does count into the `reused` echo of the batch length). -/
theorem batch_validation_drop :
    (∀ (st : UpsertState IncStored) (e : IncRec) (es : List IncRec),
      incDropped e = true →
      upsertLoop (fun r : IncRec => r.id) incDropped incValues st (e :: es) =
        upsertLoop (fun r : IncRec => r.id) incDropped incValues st es) ∧
    (∀ (cats : List Category) (st : UpsertState ExpStored) (e : ExpRec) (es : List ExpRec),
      expDropped e = true →
      upsertLoopE (fun r : ExpRec => r.transactionId) expDropped (expValues cats) st (e :: es) =
        upsertLoopE (fun r : ExpRec => r.transactionId) expDropped (expValues cats) st es) ∧
    (∀ (map : List (String × Nat)) (genId : Nat → String) (st : NWState)
       (e : NWRec) (es : List NWRec),
      nwDropped e = true →
      (e :: es).foldl (nwStep map genId) st = es.foldl (nwStep map genId) st) ∧
    (∀ (t : List (Option ExpStored)) (cats : List Category) (led : TsLedger)
       (now : String) (e : ExpRec),
      expDropped e = true →
      saveBatchExpenses (some t) cats led now [e] =
        .ok (t, updateDataTimestamp led "masterData" now, ⟨true, 0, 0, 1, ""⟩)) ∧
    (∀ (t : List (Option NWStored)) (led : TsLedger) (genId : Nat → String)
       (now : String) (e : NWRec),
      nwDropped e = true →
      saveBatchNetWorth (some t) led genId now [e] =
        (some t, updateDataTimestamp led "netWorth" now, ⟨true, 0, 0, 0, [], now, ""⟩)) ∧
    (∀ e : ExpRec, e.amount.truthy = true → e.amount.toNumber = none →
      expDropped e = false) ∧
    (∀ (e : NWRec) (x : Int), JSVal.parseFloat e.amount = some x → nwDropped e = false) := by
  refine ⟨?_, ?_, ?_, ?_, ?_, ?_, ?_⟩
  · intro st e es hdrop
    simp only [upsertLoop, List.foldl_cons, upsertStep, hdrop, if_true]
  · intro cats st e es hdrop
    simp only [upsertLoopE, hdrop, if_true]
  · intro map genId st e es hdrop
    simp only [List.foldl_cons, nwStep, hdrop, if_true]
  · intro t cats led now e hdrop
    simp only [saveBatchExpenses, upsertLoopE, hdrop, if_true, applyWrites,
      List.append_nil, List.foldl_nil, List.length_nil]
    rfl
  · intro t led genId now e hdrop
    simp only [saveBatchNetWorth, List.foldl_cons, List.foldl_nil, nwStep, hdrop, if_true]
    rfl
  · intro e htr hnum
    simp only [expDropped, htr, hnum, jsLeZero, Bool.not_true, Bool.false_or]
  · intro e x hparse
    simp only [nwDropped, hparse, Option.isSome_some, Option.isNone_some, Bool.or_false]
    cases ha : e.amount <;> simp_all [JSVal.parseFloat]

/-- Closed instance of C3 (amended): a zero-amount expense is dropped and a
NaN-string amount is kept by the expense guard. -/
theorem batch_validation_drop_witness :
    saveBatchExpenses (some ([] : List (Option ExpStored))) []
        (⟨"a", "b", "c", "d", "e", "f", "g"⟩ : TsLedger) "NEW"
        [⟨"a1", "1-Jul-2025", JSVal.num 0, "Food", "n", "", "", "", ""⟩] =
      .ok (([] : List (Option ExpStored)), ⟨"a", "b", "c", "NEW", "e", "f", "g"⟩,
        ⟨true, 0, 0, 1, ""⟩) ∧
    expDropped ⟨"a1", "1-Jul-2025", JSVal.str "abc", "Food", "n", "", "", "", ""⟩ = false :=
  ⟨batch_validation_drop.2.2.2.1 [] [] ⟨"a", "b", "c", "d", "e", "f", "g"⟩ "NEW"
    ⟨"a1", "1-Jul-2025", JSVal.num 0, "Food", "n", "", "", "", ""⟩ (by decide),
   batch_validation_drop.2.2.2.2.2.1 ⟨"a1", "1-Jul-2025", JSVal.str "abc", "Food", "n", "", "", "", ""⟩
    (by decide) (by decide)⟩

/-- C5: slot assignment of the batch upserts, for `saveBatchExpenses` and
`saveBatchNetWorth` on a one-record batch: a record whose ID occupies a
slot overwrites that slot in place; a record with a fresh ID consumes the
first-seen hole; and when no hole exists it is appended after the current
last-used row. -/
theorem upsert_slot_assignment :
    (∀ (t : List (Option ExpStored)) (cats : List Category) (led : TsLedger)
       (now : String) (e : ExpRec) (v : ExpStored) (r : Nat),
      expDropped e = false → expValues cats e = .ok v →
      lookupRow (buildMap expSlotId t) e.transactionId = some r →
      saveBatchExpenses (some t) cats led now [e] =
        .ok (setSlot t r v, updateDataTimestamp led "masterData" now,
             ⟨true, 1, 0, 0, ""⟩)) ∧
    (∀ (t : List (Option ExpStored)) (cats : List Category) (led : TsLedger)
       (now : String) (e : ExpRec) (v : ExpStored) (h : Nat),
      expDropped e = false → expValues cats e = .ok v →
      lookupRow (buildMap expSlotId t) e.transactionId = none →
      (List.range (readCount t)).find? (fun i => expIsHole (getSlot t i)) = some h →
      saveBatchExpenses (some t) cats led now [e] =
        .ok (setSlot t h v, updateDataTimestamp led "masterData" now,
             ⟨true, 0, 1, 0, ""⟩)) ∧
    (∀ (t : List (Option ExpStored)) (cats : List Category) (led : TsLedger)
       (now : String) (e : ExpRec) (v : ExpStored),
      expDropped e = false → expValues cats e = .ok v →
      lookupRow (buildMap expSlotId t) e.transactionId = none →
      (List.range (readCount t)).find? (fun i => expIsHole (getSlot t i)) = none →
      saveBatchExpenses (some t) cats led now [e] =
        .ok (setSlot t (readCount t) v, updateDataTimestamp led "masterData" now,
             ⟨true, 0, 1, 0, ""⟩)) ∧
    (∀ (t : List (Option NWStored)) (led : TsLedger) (genId : Nat → String)
       (now : String) (e : NWRec) (r : Nat),
      nwDropped e = false → e.id ≠ "" →
      lookupRow (buildMap nwSlotId t) e.id = some r →
      saveBatchNetWorth (some t) led genId now [e] =
        (some (setSlot t r (nwValues e "")), updateDataTimestamp led "netWorth" now,
         ⟨true, 1, 0, 1, [nwValues e ""], now, ""⟩)) ∧
    (∀ (t : List (Option NWStored)) (led : TsLedger) (genId : Nat → String)
       (now : String) (e : NWRec) (h : Nat),
      nwDropped e = false → e.id ≠ "" →
      lookupRow (buildMap nwSlotId t) e.id = none →
      (List.range (readCount t)).find? (fun i => nwIsHole (getSlot t i)) = some h →
      saveBatchNetWorth (some t) led genId now [e] =
        (some (setSlot t h (nwValues e "")), updateDataTimestamp led "netWorth" now,
         ⟨true, 0, 1, 1, [nwValues e ""], now, ""⟩)) ∧
    (∀ (t : List (Option NWStored)) (led : TsLedger) (genId : Nat → String)
       (now : String) (e : NWRec),
      nwDropped e = false → e.id ≠ "" →
      lookupRow (buildMap nwSlotId t) e.id = none →
      (List.range (readCount t)).find? (fun i => nwIsHole (getSlot t i)) = none →
      saveBatchNetWorth (some t) led genId now [e] =
        (some (setSlot t (readCount t) (nwValues e "")), updateDataTimestamp led "netWorth" now,
         ⟨true, 0, 1, 1, [nwValues e ""], now, ""⟩)) := by
  refine ⟨?_, ?_, ?_, ?_, ?_, ?_⟩
  · intro t cats led now e v r hd hv hlook
    simp only [saveBatchExpenses, upsertLoopE_single cats e v hd hv]
    simp only [upsertPlace, initState, hlook]
    simp only [applyWrites, List.nil_append, List.append_nil, List.cons_append,
      List.foldl_cons, List.foldl_nil, List.length_cons, List.length_nil]
    norm_num
  · intro t cats led now e v h hd hv hlook hhole
    have hhead := buildHoles_head expIsHole t [e].length (by simp)
    rw [hhole] at hhead
    rcases hbh : buildHoles expIsHole t [e].length with _ | ⟨h0, hs⟩
    · rw [hbh] at hhead; exact absurd hhead (by simp)
    · rw [hbh] at hhead
      simp only [List.head?_cons, Option.some.injEq] at hhead
      subst hhead
      simp only [saveBatchExpenses, upsertLoopE_single cats e v hd hv]
      simp only [upsertPlace, initState, hlook, hbh]
      simp only [applyWrites, List.nil_append, List.append_nil, List.cons_append,
        List.foldl_cons, List.foldl_nil, List.length_cons, List.length_nil]
      norm_num
  · intro t cats led now e v hd hv hlook hhole
    have hhead := buildHoles_head expIsHole t [e].length (by simp)
    rw [hhole] at hhead
    have hbh : buildHoles expIsHole t [e].length = [] := by
      cases hx : buildHoles expIsHole t [e].length with
      | nil => rfl
      | cons a l => rw [hx] at hhead; simp at hhead
    simp only [saveBatchExpenses, upsertLoopE_single cats e v hd hv]
    simp only [upsertPlace, initState, hlook, hbh]
    simp only [applyWrites, List.nil_append, List.append_nil, List.cons_append,
      List.foldl_cons, List.foldl_nil, List.length_cons, List.length_nil,
      readCount_sub_one_add_one]
    norm_num
  · intro t led genId now e r hd hid hlook
    simp only [saveBatchNetWorth, List.foldl_cons, List.foldl_nil, nwStep, hd,
      Bool.false_eq_true, if_false, hid, if_neg hid, false_and, if_false, hlook]
    simp only [applyWrites, List.nil_append, List.append_nil, List.cons_append,
      List.foldl_cons, List.foldl_nil, List.length_cons, List.length_nil, List.map_cons,
      List.map_nil]
  · intro t led genId now e h hd hid hlook hhole
    have hhead := buildAllHoles_head nwIsHole t
    rw [hhole] at hhead
    rcases hbh : buildAllHoles nwIsHole t with _ | ⟨h0, hs⟩
    · rw [hbh] at hhead; exact absurd hhead (by simp)
    · rw [hbh] at hhead
      simp only [List.head?_cons, Option.some.injEq] at hhead
      subst hhead
      simp only [saveBatchNetWorth, List.foldl_cons, List.foldl_nil, nwStep, hd,
        Bool.false_eq_true, if_false, hid, if_neg hid, false_and, if_false, hlook, hbh]
      simp only [applyWrites, List.nil_append, List.append_nil, List.cons_append,
        List.foldl_cons, List.foldl_nil, List.length_cons, List.length_nil, List.map_cons,
        List.map_nil]
  · intro t led genId now e hd hid hlook hhole
    have hhead := buildAllHoles_head nwIsHole t
    rw [hhole] at hhead
    have hbh : buildAllHoles nwIsHole t = [] := by
      cases hx : buildAllHoles nwIsHole t with
      | nil => rfl
      | cons a l => rw [hx] at hhead; simp at hhead
    simp only [saveBatchNetWorth, List.foldl_cons, List.foldl_nil, nwStep, hd,
      Bool.false_eq_true, if_false, hid, if_neg hid, false_and, if_false, hlook, hbh]
    simp only [applyWrites, List.nil_append, List.append_nil, List.cons_append,
      List.foldl_cons, List.foldl_nil, List.length_cons, List.length_nil, List.map_cons,
      List.map_nil]

/-- Closed instance of C5: a table with a hole at slot 3 (1-based; index 2)
and last-used slot 7 takes a fresh insert into slot 3, not slot 8. -/
theorem upsert_slot_assignment_witness :
    saveBatchExpenses
        (some [some ⟨"r1", "d", some 1, "=z", "", "", "", "Other"⟩,
               some ⟨"r2", "d", some 1, "=z", "", "", "", "Other"⟩,
               none,
               some ⟨"r4", "d", some 1, "=z", "", "", "", "Other"⟩,
               some ⟨"r5", "d", some 1, "=z", "", "", "", "Other"⟩,
               some ⟨"r6", "d", some 1, "=z", "", "", "", "Other"⟩,
               some ⟨"r7", "d", some 1, "=z", "", "", "", "Other"⟩])
        [⟨"Food", "Food X", "=zategory1"⟩]
        (⟨"a", "b", "c", "d", "e", "f", "g"⟩ : TsLedger) "NEW"
        [⟨"new1", "1-Jul-2025", JSVal.num 5, "Food", "n", "", "", "", ""⟩] =
      .ok (setSlot
             [some ⟨"r1", "d", some 1, "=z", "", "", "", "Other"⟩,
              some ⟨"r2", "d", some 1, "=z", "", "", "", "Other"⟩,
              none,
              some ⟨"r4", "d", some 1, "=z", "", "", "", "Other"⟩,
              some ⟨"r5", "d", some 1, "=z", "", "", "", "Other"⟩,
              some ⟨"r6", "d", some 1, "=z", "", "", "", "Other"⟩,
              some ⟨"r7", "d", some 1, "=z", "", "", "", "Other"⟩] 2
             ⟨"new1", "1-Jul-2025", some 5, "=zategory1", "n", "", "", "Other"⟩,
           updateDataTimestamp ⟨"a", "b", "c", "d", "e", "f", "g"⟩ "masterData" "NEW",
           ⟨true, 0, 1, 0, ""⟩) :=
  upsert_slot_assignment.2.1
    [some ⟨"r1", "d", some 1, "=z", "", "", "", "Other"⟩,
     some ⟨"r2", "d", some 1, "=z", "", "", "", "Other"⟩,
     none,
     some ⟨"r4", "d", some 1, "=z", "", "", "", "Other"⟩,
     some ⟨"r5", "d", some 1, "=z", "", "", "", "Other"⟩,
     some ⟨"r6", "d", some 1, "=z", "", "", "", "Other"⟩,
     some ⟨"r7", "d", some 1, "=z", "", "", "", "Other"⟩]
    [⟨"Food", "Food X", "=zategory1"⟩] ⟨"a", "b", "c", "d", "e", "f", "g"⟩ "NEW"
    ⟨"new1", "1-Jul-2025", JSVal.num 5, "Food", "n", "", "", "", ""⟩
    ⟨"new1", "1-Jul-2025", some 5, "=zategory1", "n", "", "", "Other"⟩ 2
    (by decide) (by rfl) (by decide) (by decide)

/-- Counterexample to C6 as stated: a batch with two valid records sharing
one ID is not idempotent: the first application leaves the earlier record's
values in the slot, the second leaves the later record's values, so the
record contents differ between the applications. -/
theorem saveBatchIncome_not_idempotent_cex :
    (saveBatchIncomeCore
        (saveBatchIncomeCore ([] : List (Option IncStored))
          [⟨"a1", "d", JSVal.num 5, "first", "", "", "", ""⟩,
           ⟨"a1", "d", JSVal.num 7, "second", "", "", "", ""⟩]).1
        [⟨"a1", "d", JSVal.num 5, "first", "", "", "", ""⟩,
         ⟨"a1", "d", JSVal.num 7, "second", "", "", "", ""⟩]).1 ≠
      (saveBatchIncomeCore ([] : List (Option IncStored))
        [⟨"a1", "d", JSVal.num 5, "first", "", "", "", ""⟩,
         ⟨"a1", "d", JSVal.num 7, "second", "", "", "", ""⟩]).1 := by
  decide

/-- C6 (amended): `saveBatchIncome` is idempotent for batches whose
validated records carry nonempty, pairwise distinct IDs, applied to tables
whose occupied slots have unique IDs: applying the same batch a second time
leaves table contents (and hence the occupied-slot set) unchanged, and the
second application reports every validated record as an update and zero
inserts. -/
theorem saveBatchIncome_idempotent_distinct (t : List (Option IncStored))
    (es : List IncRec) (huniq : UniqueIds t) (hvd : ValidDistinct es) :
    (saveBatchIncomeCore (saveBatchIncomeCore t es).1 es).1 =
      (saveBatchIncomeCore t es).1 ∧
    (saveBatchIncomeCore (saveBatchIncomeCore t es).1 es).2.updated =
      (es.filter (fun e => !incDropped e)).length ∧
    (saveBatchIncomeCore (saveBatchIncomeCore t es).1 es).2.inserted = 0 := by
  have hbr := inc_bridge t es huniq hvd
  obtain ⟨hI, hlen, hOK⟩ :=
    inc_run2 (saveBatchIncomeCore t es).1 es
      (initState incSlotId incIsHole (saveBatchIncomeCore t es).1 es.length)
      rfl
      (fun e he hd => hbr e he hd)
      (by intro w hw; simp [initState] at hw)
  have h1 : (saveBatchIncomeCore (saveBatchIncomeCore t es).1 es).1 =
      applyWrites (saveBatchIncomeCore t es).1
        ((upsertLoop (fun r : IncRec => r.id) incDropped incValues
            (initState incSlotId incIsHole (saveBatchIncomeCore t es).1 es.length)
            es).toUpdate ++
         (upsertLoop (fun r : IncRec => r.id) incDropped incValues
            (initState incSlotId incIsHole (saveBatchIncomeCore t es).1 es.length)
            es).toInsert) := rfl
  have h2 : (saveBatchIncomeCore (saveBatchIncomeCore t es).1 es).2.updated =
      (upsertLoop (fun r : IncRec => r.id) incDropped incValues
        (initState incSlotId incIsHole (saveBatchIncomeCore t es).1 es.length)
        es).toUpdate.length := rfl
  have h3 : (saveBatchIncomeCore (saveBatchIncomeCore t es).1 es).2.inserted =
      (upsertLoop (fun r : IncRec => r.id) incDropped incValues
        (initState incSlotId incIsHole (saveBatchIncomeCore t es).1 es.length)
        es).toInsert.length := rfl
  refine ⟨?_, ?_, ?_⟩
  · rw [h1, hI, List.append_nil]
    exact applyWrites_id _ _ hOK
  · rw [h2, hlen]
    simp [initState]
  · rw [h3, hI]
    rfl

/-- Closed instance of C6 (amended): a two-record batch with distinct ids
on the empty table. -/
theorem saveBatchIncome_idempotent_distinct_witness :
    (saveBatchIncomeCore
        (saveBatchIncomeCore ([] : List (Option IncStored))
          [⟨"a1", "d", JSVal.num 5, "first", "", "", "", ""⟩,
           ⟨"b2", "d", JSVal.num 7, "second", "", "", "", ""⟩]).1
        [⟨"a1", "d", JSVal.num 5, "first", "", "", "", ""⟩,
         ⟨"b2", "d", JSVal.num 7, "second", "", "", "", ""⟩]).1 =
      (saveBatchIncomeCore ([] : List (Option IncStored))
        [⟨"a1", "d", JSVal.num 5, "first", "", "", "", ""⟩,
         ⟨"b2", "d", JSVal.num 7, "second", "", "", "", ""⟩]).1 ∧
    (saveBatchIncomeCore
        (saveBatchIncomeCore ([] : List (Option IncStored))
          [⟨"a1", "d", JSVal.num 5, "first", "", "", "", ""⟩,
           ⟨"b2", "d", JSVal.num 7, "second", "", "", "", ""⟩]).1
        [⟨"a1", "d", JSVal.num 5, "first", "", "", "", ""⟩,
         ⟨"b2", "d", JSVal.num 7, "second", "", "", "", ""⟩]).2.updated =
      ([⟨"a1", "d", JSVal.num 5, "first", "", "", "", ""⟩,
        ⟨"b2", "d", JSVal.num 7, "second", "", "", "", ""⟩].filter
          (fun e : IncRec => !incDropped e)).length ∧
    (saveBatchIncomeCore
        (saveBatchIncomeCore ([] : List (Option IncStored))
          [⟨"a1", "d", JSVal.num 5, "first", "", "", "", ""⟩,
           ⟨"b2", "d", JSVal.num 7, "second", "", "", "", ""⟩]).1
        [⟨"a1", "d", JSVal.num 5, "first", "", "", "", ""⟩,
         ⟨"b2", "d", JSVal.num 7, "second", "", "", "", ""⟩]).2.inserted = 0 :=
  saveBatchIncome_idempotent_distinct []
    [⟨"a1", "d", JSVal.num 5, "first", "", "", "", ""⟩,
     ⟨"b2", "d", JSVal.num 7, "second", "", "", "", ""⟩]
    (by intro i j vi vj hvi hvj _ _; simp [getSlot] at hvi)
    (by constructor
        · intro e he hd
          fin_cases he <;> decide
        · decide)

end SimBudget
